import Mathlib

/-!
Verification of the Haven browser vector database coordinator.

The development shallowly embeds the `VectorDB` façade (src/unnamed/part_000)
and the `TransformersEmbedding` retry loop (src/src/embedding/TransformersEmbedding.ts)
as pure state-passing Lean functions.  Collaborator components that are not part
of the repository snapshot (IndexedDBStorage, IndexManager, PerformanceOptimizer,
InputValidator, the errors module) are modelled from the specification, as marked
on each definition.  JavaScript numbers on the paths the claims exercise are
modelled as rationals (vector entries, scores) and naturals (timestamps, counts);
JavaScript truthiness of strings ("" falsy) and of `Option`-valued fields is
modelled explicitly where the source relies on it.
-/

/-- Decidable equality for `Except`, used to evaluate the embedded operations
on concrete inputs. -/
instance {ε α : Type} [DecidableEq ε] [DecidableEq α] : DecidableEq (Except ε α) := fun x y =>
  match x, y with
  | .ok a, .ok b => decidable_of_iff (a = b) (by simp)
  | .error e, .error f => decidable_of_iff (e = f) (by simp)
  | .ok _, .error _ => isFalse (by simp)
  | .error _, .ok _ => isFalse (by simp)

namespace Haven

/-- JSON scalar appearing in metadata. -/
inductive MetaScalar where
  | str (s : String)
  | num (q : ℚ)
  | bool (b : Bool)
  | null
deriving DecidableEq

/-- JSON-style metadata value: a scalar, an array, or a one-level nested object
(the shapes the repository's data and tests use).  `undef` models a JavaScript
object property that is present but holds `undefined` (as produced by
`content: data.text` when no text was supplied). -/
inductive MetaVal where
  | scalar (v : MetaScalar)
  | undef
  | arr (xs : List MetaScalar)
  | obj (fields : List (String × MetaScalar))
deriving DecidableEq

/-- Shorthand for a string-valued metadata entry. -/
def MetaVal.str (s : String) : MetaVal := .scalar (.str s)

/-- Shorthand for a number-valued metadata entry. -/
def MetaVal.num (q : ℚ) : MetaVal := .scalar (.num q)

/-- Metadata is a JavaScript object: an ordered association list of fields. -/
abbrev Metadata := List (String × MetaVal)

/-- First-occurrence lookup of a key, i.e. JavaScript property read. -/
def mget : Metadata → String → Option MetaVal
  | [], _ => none
  | (k', v) :: rest, k => if k' = k then some v else mget rest k

/-- JavaScript property write: replace the value in place if the key exists
(preserving key order), otherwise append the key. -/
def mset : Metadata → String → MetaVal → Metadata
  | [], k, v => [(k, v)]
  | (k', v') :: rest, k, v =>
    if k' = k then (k, v) :: rest else (k', v') :: mset rest k v

/-- JavaScript object spread `{...m1, ...m2}`: fields of `m2` written over `m1`
in order. -/
def mergeMeta (m1 m2 : Metadata) : Metadata :=
  m2.foldl (fun acc kv => mset acc kv.1 kv.2) m1

/-- The canonical persistent entity (src/unnamed/part_000, `VectorRecord`).
Vector entries are modelled as rationals standing for the exact float values;
`Array.from` / `new Float32Array` round-trips are the identity on them. -/
structure VectorRecord where
  id : String
  vector : List ℚ
  metadata : Metadata
  timestamp : Nat
deriving DecidableEq

/-- Keyed read from a record list (Storage `get`, modelled from the spec:
Storage is a keyed persistent store). -/
def getRecord : List VectorRecord → String → Option VectorRecord
  | [], _ => none
  | r :: rest, id => if r.id = id then some r else getRecord rest id

/-- Keyed idempotent upsert (Storage `put` / AnnIndex `add` membership effect,
modelled from the spec). -/
def putRecord : List VectorRecord → VectorRecord → List VectorRecord
  | [], r => [r]
  | r' :: rest, r => if r'.id = r.id then r :: rest else r' :: putRecord rest r

/-- Batch upsert in submission order (Storage `putBatch` / AnnIndex `addBatch`). -/
def putBatchRecords (l : List VectorRecord) (rs : List VectorRecord) : List VectorRecord :=
  rs.foldl putRecord l

/-- Keyed removal (Storage `delete` / AnnIndex `remove`); no-op when absent. -/
def eraseRecord : List VectorRecord → String → List VectorRecord
  | [], _ => []
  | r :: rest, id => if r.id = id then rest else r :: eraseRecord rest id

/-- Typed errors.  `vdb code` models `VectorDBError` with its string error code
(e.g. "INVALID_EXPORT_DATA"); `dimensionMismatch` models `DimensionMismatchError`
(which is itself a `VectorDBError`, so coordinator catch blocks rethrow it
unwrapped).  The `errors` module is not in the snapshot; modelled from the spec's
error taxonomy and the codes used in src/unnamed/part_000. -/
inductive Err where
  | dimensionMismatch (expected actual : Int)
  | vdb (code : String)
deriving DecidableEq

/-- Observable calls the coordinator makes into its collaborators, recorded as a
trace so that routing claims (direct Storage.put vs BatchCoalescer, index
remove-then-add order, rebuild steps) are statable. -/
inductive Eff where
  | storageGet (id : String)
  | storagePut (id : String)
  | storagePutBatch (n : Nat)
  | storageDelete (id : String)
  | storageGetAll
  | storageClear
  | coalescerPut (id : String)
  | coalescerDelete (id : String)
  | coalescerFlush
  | cacheSet (id : String)
  | cacheDelete (id : String)
  | cacheClear
  | indexAdd (id : String)
  | indexAddBatch (n : Nat)
  | indexRemove (id : String)
  | indexClear
  | indexSerialize
  | indexDeserializeCall
  | warn
deriving DecidableEq

/-- The configuration fields of `VectorDBConfig` the embedded operations read:
`index.dimensions`, whether `performance` enables the batch optimizer, and
`performance.chunkSize`. -/
structure Config where
  dims : Nat
  hasBatch : Bool
  chunkSizeCfg : Option Nat
deriving DecidableEq

/-- Observable state of an initialized `VectorDB`: durable storage contents,
ANN index membership, the vector cache and the embedding cache.
The caches are modelled from the spec without byte/entry-count eviction
(the configuration in which every record fits the bounds). -/
structure DB where
  cfg : Config
  storage : List VectorRecord
  index : List VectorRecord
  vcache : List (String × VectorRecord)
  ecache : List (String × List ℚ)
deriving DecidableEq

/-- Association-list read keyed by a string (VectorCache / EmbeddingCache get). -/
def alistGet {α : Type} : List (String × α) → String → Option α
  | [], _ => none
  | (k', v) :: rest, k => if k' = k then some v else alistGet rest k

/-- Association-list upsert (VectorCache `set` / EmbeddingCache fill), modelled
from the spec without eviction. -/
def alistPut {α : Type} : List (String × α) → String → α → List (String × α)
  | [], k, v => [(k, v)]
  | (k', v') :: rest, k, v =>
    if k' = k then (k, v) :: rest else (k', v') :: alistPut rest k v

/-- Association-list removal (VectorCache `delete`), idempotent. -/
def alistDrop {α : Type} : List (String × α) → String → List (String × α)
  | [], _ => []
  | (k', v') :: rest, k => if k' = k then rest else (k', v') :: alistDrop rest k

/-- Query filter language (src IndexManager tests / spec §3): a leaf comparison
or an and/or combination. -/
inductive QueryFilter where
  | leaf (field : String) (op : String) (value : MetaVal)
  | combA (fs : List QueryFilter)
  | combO (fs : List QueryFilter)

/-- Modelled from the spec: leaf filter evaluation.  `eq`/`ne` compare the
metadata value; `gt/gte/lt/lte` compare numbers (false when the field is absent
or not a number, as in scenario S3); `contains` tests array membership or
substring. -/
def evalLeaf (m : Metadata) (field op : String) (value : MetaVal) : Bool :=
  match op with
  | "eq" => mget m field = some value
  | "ne" => ¬ (mget m field = some value)
  | "gt" => match mget m field, value with
    | some (.scalar (.num a)), .scalar (.num b) => b < a
    | _, _ => false
  | "gte" => match mget m field, value with
    | some (.scalar (.num a)), .scalar (.num b) => b ≤ a
    | _, _ => false
  | "lt" => match mget m field, value with
    | some (.scalar (.num a)), .scalar (.num b) => a < b
    | _, _ => false
  | "lte" => match mget m field, value with
    | some (.scalar (.num a)), .scalar (.num b) => a ≤ b
    | _, _ => false
  | "contains" => match mget m field, value with
    | some (.arr xs), .scalar v => v ∈ xs
    | some (.scalar (.str s)), .scalar (.str sub) => decide (sub.toList <:+: s.toList)
    | _, _ => false
  | "in" => match value with
    | .arr xs => match mget m field with
      | some (.scalar v) => v ∈ xs
      | _ => false
    | _ => false
  | _ => false

/-- Modelled from the spec: short-circuiting recursive filter evaluation. -/
def evalFilter (m : Metadata) : QueryFilter → Bool
  | .leaf field op value => evalLeaf m field op value
  | .combA fs => fs.attach.all (fun f => have := f.2; evalFilter m f.1)
  | .combO fs => fs.attach.any (fun f => have := f.2; evalFilter m f.1)
decreasing_by
  all_goals simp only [QueryFilter.combA.sizeOf_spec, QueryFilter.combO.sizeOf_spec]
  all_goals exact Nat.lt_add_left 1 (List.sizeOf_lt_of_mem this)

/-- A candidate passes when no filter is given or the filter evaluates true. -/
def passesFilter (f : Option QueryFilter) (m : Metadata) : Bool :=
  match f with
  | none => true
  | some f => evalFilter m f

/-- Search result entry (`{ id, score, metadata }`). -/
structure SearchResult where
  id : String
  score : ℚ
  metadata : Metadata
deriving DecidableEq

/-- Modelled from the spec: the cosine score of L2-normalized vectors is
`1 - distance = dot product`; the index stores vectors as given and scores a
candidate by the dot product with the query. -/
def dotScore (a b : List ℚ) : ℚ := (List.zipWith (fun x y => x * y) a b).sum

/-- Result ordering: score descending, ties broken by id ascending (spec §4.2). -/
def resBefore (a b : SearchResult) : Prop :=
  b.score < a.score ∨ (a.score = b.score ∧ a.id ≤ b.id)

instance : DecidableRel resBefore := fun a b => by
  unfold resBefore; infer_instance

/-- Modelled from the spec: `AnnIndex.search` — validate query dimensions,
score every member, drop candidates failing the filter before truncation,
sort by score descending with id tiebreak, return the first `k`. -/
def annSearch (dims : Nat) (index : List VectorRecord) (q : List ℚ) (k : Nat)
    (f : Option QueryFilter) : Except Err (List SearchResult) :=
  if q.length ≠ dims then
    .error (.dimensionMismatch dims q.length)
  else
    .ok (((index.filter (fun r => passesFilter f r.metadata)).map
      (fun r => ⟨r.id, dotScore q r.vector, r.metadata⟩)).insertionSort resBefore |>.take k)

/-- Modelled from the spec: `AnnIndex.add` fails with `DimensionMismatch` on a
wrong-dimension vector and leaves the index unchanged; otherwise membership is
immediate. -/
def annAdd (dims : Nat) (index : List VectorRecord) (r : VectorRecord) :
    Except Err (List VectorRecord) :=
  if r.vector.length ≠ dims then .error (.dimensionMismatch dims r.vector.length)
  else .ok (putRecord index r)

/-- Modelled from the spec: `AnnIndex.addBatch` — incremental insertion of each
record in order. -/
def annAddBatch (dims : Nat) (index : List VectorRecord) :
    List VectorRecord → Except Err (List VectorRecord)
  | [] => .ok index
  | r :: rest => match annAdd dims index r with
    | .error e => .error e
    | .ok idx => annAddBatch dims idx rest

/-- Opaque serialized index: either a valid encoding capturing dimensions and
membership (spec §4.2 `serialize`) or corrupted bytes.  Modelled from the spec;
the envelope's `index: ''` (falsy, omitted) case is represented by `Option.none`
at the envelope field. -/
inductive SerializedIndex where
  | valid (dims : Nat) (entries : List VectorRecord)
  | corrupt (raw : String)
deriving DecidableEq

/-- Modelled from the spec and the IndexManager tests: `deserialize` fails with
`IndexCorrupted` on malformed input and with `DimensionMismatch` when the
serialized dimensions disagree with the configured dimensions; otherwise it
restores the serialized membership. -/
def annDeserialize (dims : Nat) : SerializedIndex → Except Err (List VectorRecord)
  | .corrupt _ => .error (.vdb "INDEX_CORRUPTED")
  | .valid d entries =>
    if d ≠ dims then .error (.dimensionMismatch dims d) else .ok entries

/-- Insert payload (`InsertData`): optional vector, optional text, optional
metadata. -/
structure InsertData where
  vector : Option (List ℚ)
  text : Option String
  metadata : Option Metadata
deriving DecidableEq

/-- JavaScript truthiness of an optional string: absent or `""` is falsy. -/
def truthyStr : Option String → Option String
  | some s => if s = "" then none else some s
  | none => none

/-- Modelled from the spec: `InputValidator.validateAndSanitizeMetadata` is not
in the snapshot; the spec only requires metadata to be validated and sanitized,
so sanitization is modelled as the identity on (well-typed) metadata, and a
missing metadata argument yields the empty object. -/
def sanitizeMetadata : Option Metadata → Metadata
  | some m => m
  | none => []

/-- Modelled from the spec: `InputValidator.validateVector` fails with
`DimensionMismatch` when the vector length differs from the configured
dimensionality. -/
def validateVector (dims : Nat) (v : List ℚ) : Except Err Unit :=
  if v.length ≠ dims then .error (.dimensionMismatch dims v.length) else .ok ()

/-- `VectorDB.generateId`: `Date.now()` and a random suffix joined by a dash. -/
def generateId (now : Nat) (rnd : String) : String :=
  toString now ++ "-" ++ rnd

/-- `VectorDB.prepareVector`: validate a provided vector, or look up / generate
and validate an embedding for provided text.  A cached embedding is returned
without re-validation, exactly as in the source.  `embed` stands for the
external embedding generator. -/
def prepareVector (db : DB) (embed : String → List ℚ) (data : InsertData) :
    Except Err (List ℚ) × DB :=
  match data.vector with
  | some v =>
    (match validateVector db.cfg.dims v with
     | .error e => (.error e, db)
     | .ok _ => (.ok v, db))
  | none =>
    match truthyStr data.text with
    | some t =>
      (match alistGet db.ecache t with
       | some cached => (.ok cached, db)
       | none =>
         let v := embed t
         match validateVector db.cfg.dims v with
         | .error e => (.error e, db)
         | .ok _ => (.ok v, { db with ecache := alistPut db.ecache t v }))
    | none => (.error (.vdb "INVALID_INSERT_DATA"), db)

/-- The metadata actually stored by `insert`/`insertBatch`:
`{...sanitized, content: data.text, timestamp: Date.now()}`. -/
def storedMetadata (data : InsertData) (now : Nat) : Metadata :=
  let content := match data.text with
    | some t => MetaVal.str t
    | none => MetaVal.undef
  mset (mset (sanitizeMetadata data.metadata) "content" content) "timestamp"
    (MetaVal.num (now : ℚ))

/-- `VectorDB.insert`: sanitize metadata, prepare the vector, build the record,
write through the batch optimizer when present (else Storage.put), fill the
vector cache, add to the index, return the id. -/
def insert (db : DB) (embed : String → List ℚ) (now : Nat) (rnd : String)
    (data : InsertData) : Except Err String × DB × List Eff :=
  match prepareVector db embed data with
  | (.error e, db1) => (.error e, db1, [])
  | (.ok v, db1) =>
    let id := generateId now rnd
    let record : VectorRecord :=
      { id := id, vector := v, metadata := storedMetadata data now, timestamp := now }
    let putEff := if db1.cfg.hasBatch then Eff.coalescerPut id else Eff.storagePut id
    let db2 := { db1 with
      storage := putRecord db1.storage record,
      vcache := alistPut db1.vcache id record }
    match annAdd db2.cfg.dims db2.index record with
    | .error e => (.error e, db2, [putEff, .cacheSet id])
    | .ok idx =>
      (.ok id, { db2 with index := idx }, [putEff, .cacheSet id, .indexAdd id])

/-- The preparation loop of `VectorDB.insertBatch`: per item, sanitize, prepare
the vector, build the record, and fill the vector cache — so items before a
failing one have already touched the embedding and vector caches when the
batch fails. -/
def insertBatchLoop (embed : String → List ℚ) (now : Nat) (rnds : Nat → String) :
    DB → Nat → List InsertData → Except Err (List VectorRecord) × DB
  | db, _, [] => (.ok [], db)
  | db, i, item :: rest =>
    match prepareVector db embed item with
    | (.error e, db1) => (.error e, db1)
    | (.ok v, db1) =>
      let id := generateId now (rnds i)
      let record : VectorRecord :=
        { id := id, vector := v, metadata := storedMetadata item now, timestamp := now }
      let db2 := { db1 with vcache := alistPut db1.vcache id record }
      match insertBatchLoop embed now rnds db2 (i + 1) rest with
      | (.error e, db3) => (.error e, db3)
      | (.ok records, db3) => (.ok (record :: records), db3)

/-- `VectorDB.insertBatch`: prepare all records (filling caches per item), then
one Storage `putBatch` and one index `addBatch`; returns the ordered id list. -/
def insertBatch (db : DB) (embed : String → List ℚ) (now : Nat) (rnds : Nat → String)
    (data : List InsertData) : Except Err (List String) × DB × List Eff :=
  match data with
  | [] => (.ok [], db, [])
  | _ =>
    match insertBatchLoop embed now rnds db 0 data with
    | (.error e, db1) => (.error e, db1, [])
    | (.ok records, db1) =>
      let db2 := { db1 with storage := putBatchRecords db1.storage records }
      match annAddBatch db2.cfg.dims db2.index records with
      | .error e => (.error e, db2, [.storagePutBatch records.length])
      | .ok idx =>
        (.ok (records.map (fun r => r.id)), { db2 with index := idx },
          [.storagePutBatch records.length, .indexAddBatch records.length])

/-- Search query (`SearchQuery`): vector or text, `k`, optional filter. -/
structure SearchQuery where
  vector : Option (List ℚ)
  text : Option String
  k : Nat
  filter : Option QueryFilter

/-- `VectorDB.search`: resolve the query vector (provided vector, else text via
the embedding cache and generator), validate its dimensions, and delegate to
the index search.  (`InputValidator.validateSearchQuery` is not in the snapshot
and the spec attaches no semantics to it beyond the vector/text requirement, so
it is modelled as accepting; result-vector hydration is not modelled.) -/
def search (db : DB) (embed : String → List ℚ) (q : SearchQuery) :
    Except Err (List SearchResult) × DB :=
  match q.vector with
  | some qv =>
    (match annSearch db.cfg.dims db.index qv q.k q.filter with
     | .error e => (.error e, db)
     | .ok res => (.ok res, db))
  | none =>
    match truthyStr q.text with
    | some t =>
      let (qv, db1) :=
        match alistGet db.ecache t with
        | some cached => (cached, db)
        | none => (embed t, { db with ecache := alistPut db.ecache t (embed t) })
      (match annSearch db1.cfg.dims db1.index qv q.k q.filter with
       | .error e => (.error e, db1)
       | .ok res => (.ok res, db1))
    | none => (.error (.vdb "INVALID_QUERY"), db)

/-- `VectorDB.delete`: delete through the batch optimizer when present (else
Storage.delete); on a hit, also drop the cache entry and the index member. -/
def deleteOp (db : DB) (id : String) : Except Err Bool × DB × List Eff :=
  let delEff := if db.cfg.hasBatch then Eff.coalescerDelete id else Eff.storageDelete id
  match getRecord db.storage id with
  | some _ =>
    (.ok true,
     { db with
       storage := eraseRecord db.storage id,
       vcache := alistDrop db.vcache id,
       index := eraseRecord db.index id },
     [delEff, .cacheDelete id, .indexRemove id])
  | none => (.ok false, db, [delEff])

/-- `VectorDB.update`: fetch the record from Storage (false when absent), merge
sanitized metadata, regenerate the vector only when `vector` or truthy `text`
is supplied, rewrite via Storage.put directly, and refresh the index with
remove-then-add. -/
def update (db : DB) (embed : String → List ℚ) (now : Nat) (id : String)
    (data : InsertData) : Except Err Bool × DB × List Eff :=
  match getRecord db.storage id with
  | none => (.ok false, db, [.storageGet id])
  | some existing =>
    let sanitized := match data.metadata with
      | some m => sanitizeMetadata (some m)
      | none => []
    let prepared :=
      if data.vector.isSome ∨ (truthyStr data.text).isSome then
        prepareVector db embed data
      else (.ok existing.vector, db)
    match prepared with
    | (.error e, db1) => (.error e, db1, [.storageGet id])
    | (.ok v, db1) =>
      let content := match data.text with
        | some t => MetaVal.str t
        | none => (mget existing.metadata "content").getD MetaVal.undef
      let updated : VectorRecord :=
        { id := id, vector := v,
          metadata := mset (mset (mergeMeta existing.metadata sanitized) "content" content)
            "timestamp" (MetaVal.num (now : ℚ)),
          timestamp := now }
      let db2 := { db1 with storage := putRecord db1.storage updated }
      let db3 := { db2 with index := eraseRecord db2.index id }
      match annAdd db3.cfg.dims db3.index updated with
      | .error e => (.error e, db3, [.storageGet id, .storagePut id, .indexRemove id])
      | .ok idx =>
        (.ok true, { db3 with index := idx },
         [.storageGet id, .storagePut id, .indexRemove id, .indexAdd id])

/-- `VectorDB.clear`: flush the coalescer when present, clear Storage, the
index, and both caches. -/
def clearDb (db : DB) : DB × List Eff :=
  ({ db with storage := [], index := [], vcache := [], ecache := [] },
   (if db.cfg.hasBatch then [Eff.coalescerFlush] else []) ++
     [.storageClear, .indexClear, .cacheClear])

/-- Export envelope metadata (`metadata` field of `ExportData`).  `vectorCount`
and `dimensions` are `Int` so that the source's `<= 0` / `< 0` validation
branches are representable. -/
structure ExportMeta where
  exportedAt : Nat
  vectorCount : Int
  dimensions : Int
deriving DecidableEq

/-- The export envelope.  `vectors`/`metadata` are optional so that envelopes
missing them (rejected by `validateExportData`) are representable; `index` is
`none` for the falsy `''` written when the index is not included.  The exported
`config` field is not consulted by any embedded operation and is omitted. -/
structure ExportData where
  version : String
  vectors : Option (List VectorRecord)
  index : Option SerializedIndex
  metadata : Option ExportMeta
deriving DecidableEq

/-- Import options with their source defaults. -/
structure ImportOptions where
  validateSchema : Bool := true
  clearExisting : Bool := true

/-- Character-level model of JavaScript `version.split('.')`. -/
def splitDotsAux : List Char → List Char → List String
  | [], acc => [String.mk acc.reverse]
  | c :: rest, acc =>
    if c = '.' then String.mk acc.reverse :: splitDotsAux rest []
    else splitDotsAux rest (c :: acc)

/-- JavaScript `s.split('.')`. -/
def splitDots (s : String) : List String := splitDotsAux s.toList []

/-- JavaScript `parseInt(s, 10)` restricted to the inputs at hand: the longest
leading digit prefix, or `none` (NaN) when there is none. -/
def parseIntJS (s : String) : Option Nat :=
  let ds := s.toList.takeWhile (fun c => c.isDigit)
  if ds.isEmpty then none
  else some (ds.foldl (fun a c => a * 10 + (c.toNat - 48)) 0)

/-- `VectorDB.validateExportData`: missing version, missing vectors array,
missing metadata, non-positive dimensions, or negative vector count all fail
with `INVALID_EXPORT_DATA`. -/
def validateExportData (d : ExportData) : Except Err Unit :=
  if d.version = "" then .error (.vdb "INVALID_EXPORT_DATA")
  else match d.vectors with
  | none => .error (.vdb "INVALID_EXPORT_DATA")
  | some _ =>
    match d.metadata with
    | none => .error (.vdb "INVALID_EXPORT_DATA")
    | some m =>
      if m.dimensions ≤ 0 then .error (.vdb "INVALID_EXPORT_DATA")
      else if m.vectorCount < 0 then .error (.vdb "INVALID_EXPORT_DATA")
      else .ok ()

/-- `VectorDB.validateVersionCompatibility`: fewer than two dot-separated parts
fails with `INVALID_VERSION`; a major part that does not parse to the current
major (1) fails with `VERSION_INCOMPATIBLE` (JavaScript `NaN !== 1` included);
otherwise returns whether the newer-minor warning is emitted (`NaN > 0` is
false). -/
def validateVersionCompatibility (version : String) : Except Err Bool :=
  match splitDots version with
  | p0 :: p1 :: _ =>
    if parseIntJS p0 ≠ some 1 then .error (.vdb "VERSION_INCOMPATIBLE")
    else .ok (match parseIntJS p1 with
      | some m => decide (0 < m)
      | none => false)
  | _ => .error (.vdb "INVALID_VERSION")

/-- `VectorDB.export` with `includeIndex` as in `ExportOptions`: flush, stream
all records, serialize the index when requested (`''`/`none` otherwise), and
assemble the envelope. -/
def exportDb (db : DB) (now : Nat) (includeIndex : Bool) :
    Except Err ExportData × DB × List Eff :=
  let flushEffs := if db.cfg.hasBatch then [Eff.coalescerFlush] else []
  let serialized :=
    if includeIndex then some (SerializedIndex.valid db.cfg.dims db.index) else none
  (.ok {
      version := "1.0.0",
      vectors := some db.storage,
      index := serialized,
      metadata := some {
        exportedAt := now,
        vectorCount := (db.storage.length : Int),
        dimensions := (db.cfg.dims : Int) } },
   db,
   flushEffs ++ [.storageGetAll] ++ (if includeIndex then [Eff.indexSerialize] else []))

/-- An item yielded by `VectorDB.exportStream`. -/
inductive StreamItem where
  | metadataItem (version : String) (meta : ExportMeta)
  | vectorsItem (recs : List VectorRecord)
  | indexItem (si : SerializedIndex)
deriving DecidableEq

/-- `VectorDB.exportStream`: yields the metadata item; the scan callback only
accumulates records into `chunk` (the generator cannot yield from inside the
callback and `chunk` is never reset), so after the scan a single `vectors` item
holding every record is yielded when non-empty; finally the index item when
requested.  `config.performance.chunkSize` is read but used only for progress
reporting. -/
def exportStream (db : DB) (now : Nat) (includeIndex : Bool) : List StreamItem :=
  let meta : ExportMeta :=
    { exportedAt := now,
      vectorCount := (db.storage.length : Int),
      dimensions := (db.cfg.dims : Int) }
  let chunk := db.storage
  [StreamItem.metadataItem "1.0.0" meta] ++
    (if chunk.length > 0 then [StreamItem.vectorsItem chunk] else []) ++
    (if includeIndex then [StreamItem.indexItem (.valid db.cfg.dims db.index)] else [])

/-- The record-conversion loop of `VectorDB.import`: reject a falsy (empty) id
with `INVALID_VECTOR_RECORD` (array and object fields are always truthy),
reject a wrong-dimension vector with `DimensionMismatch`, and replace a falsy
(zero) timestamp with the current time. -/
def convertRecords (dims now : Nat) : List VectorRecord → Except Err (List VectorRecord)
  | [] => .ok []
  | v :: rest =>
    if v.id = "" then .error (.vdb "INVALID_VECTOR_RECORD")
    else if v.vector.length ≠ dims then
      .error (.dimensionMismatch dims v.vector.length)
    else
      match convertRecords dims now rest with
      | .error e => .error e
      | .ok rs =>
        .ok ({ id := v.id, vector := v.vector, metadata := v.metadata,
               timestamp := if v.timestamp = 0 then now else v.timestamp } :: rs)

/-- `VectorDB.rebuildIndex`: `storage.getAll()`, `index.clear()`, then
`addBatch` of everything when non-empty. -/
def rebuildIndex (db : DB) : (Except Err (List VectorRecord)) × List Eff :=
  (if db.storage.isEmpty then .ok []
   else annAddBatch db.cfg.dims [] db.storage,
   [.storageGetAll, .indexClear] ++
     (if db.storage.isEmpty then [] else [Eff.indexAddBatch db.storage.length]))

/-- `VectorDB.import`: schema validation (unless disabled), version check,
dimensions check, count check, optional clear, per-record conversion (after the
clear), batched storage import, then index deserialization with fallback to
`rebuildIndex` on failure or on an absent serialized index.  Accessing
`data.metadata.dimensions` / `data.vectors.length` when the field is missing is
the JavaScript `TypeError` path, wrapped by the catch-all as `IMPORT_ERROR`. -/
def importDb (db : DB) (now : Nat) (d : ExportData) (opts : ImportOptions) :
    Except Err Unit × DB × List Eff :=
  match (if opts.validateSchema then validateExportData d else .ok ()) with
  | .error e => (.error e, db, [])
  | .ok _ =>
  match validateVersionCompatibility d.version with
  | .error e => (.error e, db, [])
  | .ok warned =>
  let warnEffs := if warned then [Eff.warn] else []
  match d.metadata with
  | none => (.error (.vdb "IMPORT_ERROR"), db, warnEffs)
  | some meta =>
  if meta.dimensions ≠ (db.cfg.dims : Int) then
    (.error (.dimensionMismatch (db.cfg.dims : Int) meta.dimensions), db, warnEffs)
  else
  match d.vectors with
  | none => (.error (.vdb "IMPORT_ERROR"), db, warnEffs)
  | some vs =>
  if (vs.length : Int) ≠ meta.vectorCount then
    (.error (.vdb "INVALID_EXPORT_DATA"), db, warnEffs)
  else
  let (db1, clearEffs) := if opts.clearExisting then clearDb db else (db, [])
  match convertRecords db.cfg.dims now vs with
  | .error e => (.error e, db1, warnEffs ++ clearEffs)
  | .ok records =>
  let db2 := { db1 with storage := putBatchRecords db1.storage records }
  let importEffs := warnEffs ++ clearEffs ++ [Eff.storagePutBatch records.length]
  match d.index with
  | some si =>
    (match annDeserialize db2.cfg.dims si with
     | .ok entries =>
       (.ok (), { db2 with index := entries }, importEffs ++ [Eff.indexDeserializeCall])
     | .error _ =>
       let (rebuilt, rbEffs) := rebuildIndex db2
       match rebuilt with
       | .ok idx =>
         (.ok (), { db2 with index := idx },
          importEffs ++ [Eff.indexDeserializeCall] ++ rbEffs)
       | .error e => (.error e, db2, importEffs ++ [Eff.indexDeserializeCall] ++ rbEffs))
  | none =>
    let (rebuilt, rbEffs) := rebuildIndex db2
    match rebuilt with
    | .ok idx => (.ok (), { db2 with index := idx }, importEffs ++ rbEffs)
    | .error e => (.error e, db2, importEffs ++ rbEffs)

/-- Execution device of the Transformers.js pipeline. -/
inductive Device where
  | wasm
  | webgpu
deriving DecidableEq

/-- Observable step of `TransformersEmbedding.initialize`: a pipeline-load
attempt on a device, or a backoff sleep of a given duration. -/
inductive InitStep where
  | load (d : Device)
  | sleep (ms : Nat)
deriving DecidableEq

/-- The retry loop of `TransformersEmbedding.initialize`
(src/src/embedding/TransformersEmbedding.ts).  `fail k dev` says whether the
`k`-th load attempt (0-based, on device `dev`) fails.  The loop runs while
`attempt < maxRetries`; on failure `attempt` is incremented, then: if the
current device is webgpu and `attempt = 1` the device falls back to wasm and
the loop continues immediately; otherwise, if `attempt < maxRetries`, it sleeps
`retryDelay * 2 ^ (attempt - 1)` before the next try.  `fuel` is the remaining
loop bound `maxRetries - attempt`; the result records the step trace and
whether the model loaded (false = rejects with the model-load error). -/
def initFrom (fail : Nat → Device → Bool) (maxRetries retryDelay : Nat) :
    Nat → Nat → Device → List InitStep × Bool
  | 0, _, _ => ([], false)
  | fuel + 1, attempt, dev =>
    if fail attempt dev then
      let a := attempt + 1
      if dev = Device.webgpu ∧ a = 1 then
        let rest := initFrom fail maxRetries retryDelay fuel a Device.wasm
        (InitStep.load dev :: rest.1, rest.2)
      else if a < maxRetries then
        let rest := initFrom fail maxRetries retryDelay fuel a dev
        (InitStep.load dev :: InitStep.sleep (retryDelay * 2 ^ (a - 1)) :: rest.1, rest.2)
      else ([InitStep.load dev], false)
    else ([InitStep.load dev], true)

/-- `TransformersEmbedding.initialize` as a whole: the loop started at attempt 0
on the configured device. -/
def initModel (fail : Nat → Device → Bool) (dev : Device) (maxRetries retryDelay : Nat) :
    List InitStep × Bool :=
  initFrom fail maxRetries retryDelay maxRetries 0 dev

/-- Number of pipeline-load attempts in a trace. -/
def countLoads : List InitStep → Nat
  | [] => 0
  | .load _ :: rest => countLoads rest + 1
  | .sleep _ :: rest => countLoads rest

/-- The backoff sleeps of a trace, in order. -/
def sleepsOf : List InitStep → List Nat
  | [] => []
  | .load _ :: rest => sleepsOf rest
  | .sleep d :: rest => d :: sleepsOf rest

/-! ### Basic lemmas about the keyed-list operations -/

theorem mem_putRecord {l : List VectorRecord} {r x : VectorRecord} :
    x ∈ putRecord l r → x = r ∨ x ∈ l := by
  induction l with
  | nil =>
    intro h
    simp only [putRecord, List.mem_singleton] at h
    exact Or.inl h
  | cons a as ih =>
    intro h
    by_cases hid : a.id = r.id
    · simp only [putRecord, if_pos hid, List.mem_cons] at h
      rcases h with h | h
      · exact Or.inl h
      · exact Or.inr (List.mem_cons_of_mem _ h)
    · simp only [putRecord, if_neg hid, List.mem_cons] at h
      rcases h with h | h
      · exact Or.inr (h ▸ List.mem_cons_self a as)
      · rcases ih h with h' | h'
        · exact Or.inl h'
        · exact Or.inr (List.mem_cons_of_mem _ h')

theorem self_mem_putRecord (l : List VectorRecord) (r : VectorRecord) :
    r ∈ putRecord l r := by
  induction l with
  | nil => simp [putRecord]
  | cons a as ih =>
    by_cases hid : a.id = r.id
    · simp [putRecord, if_pos hid]
    · simp only [putRecord, if_neg hid]
      exact List.mem_cons_of_mem _ ih

theorem ids_putRecord (l : List VectorRecord) (r : VectorRecord) :
    (putRecord l r).map (fun x => x.id) =
      if r.id ∈ l.map (fun x => x.id) then l.map (fun x => x.id)
      else l.map (fun x => x.id) ++ [r.id] := by
  induction l with
  | nil => simp [putRecord]
  | cons a as ih =>
    by_cases hid : a.id = r.id
    · simp [putRecord, if_pos hid, hid]
    · have : ¬ r.id = a.id := fun h => hid h.symm
      simp only [putRecord, if_neg hid, List.map_cons, List.mem_cons, this, false_or, ih]
      by_cases hmem : r.id ∈ as.map (fun x => x.id) <;> simp [hmem]

theorem nodup_ids_putRecord {l : List VectorRecord} {r : VectorRecord}
    (h : (l.map (fun x => x.id)).Nodup) :
    ((putRecord l r).map (fun x => x.id)).Nodup := by
  rw [ids_putRecord]
  by_cases hmem : r.id ∈ l.map (fun x => x.id)
  · simpa [hmem] using h
  · rw [if_neg hmem]
    refine h.append (List.nodup_singleton _) ?_
    intro a ha hb
    simp only [List.mem_singleton] at hb
    exact hmem (hb ▸ ha)

theorem putRecord_of_not_mem {l : List VectorRecord} {r : VectorRecord} :
    r.id ∉ l.map (fun x => x.id) → putRecord l r = l ++ [r] := by
  induction l with
  | nil => intro _; simp [putRecord]
  | cons a as ih =>
    intro h
    simp only [List.map_cons, List.mem_cons, not_or] at h
    have hne : ¬ a.id = r.id := fun hh => h.1 hh.symm
    simp [putRecord, if_neg hne, ih h.2]

theorem mem_putBatchRecords {rs : List VectorRecord} {x : VectorRecord} :
    ∀ {l : List VectorRecord}, x ∈ putBatchRecords l rs → x ∈ l ∨ x ∈ rs := by
  induction rs with
  | nil => intro l h; exact Or.inl h
  | cons a as ih =>
    intro l h
    rcases ih (l := putRecord l a) h with h' | h'
    · rcases mem_putRecord h' with h'' | h''
      · exact Or.inr (h'' ▸ List.mem_cons_self a as)
      · exact Or.inl h''
    · exact Or.inr (List.mem_cons_of_mem _ h')

theorem nodup_ids_putBatchRecords {rs : List VectorRecord} :
    ∀ {l : List VectorRecord}, (l.map (fun x => x.id)).Nodup →
    ((putBatchRecords l rs).map (fun x => x.id)).Nodup := by
  induction rs with
  | nil => intro l h; exact h
  | cons a as ih => intro l h; exact ih (nodup_ids_putRecord h)

theorem putBatchRecords_disjoint {rs : List VectorRecord} :
    ∀ {l : List VectorRecord}, (rs.map (fun x => x.id)).Nodup →
    (∀ i ∈ rs.map (fun x => x.id), i ∉ l.map (fun x => x.id)) →
    putBatchRecords l rs = l ++ rs := by
  induction rs with
  | nil => intro l _ _; simp [putBatchRecords]
  | cons a as ih =>
    intro l hnd hdis
    simp only [List.map_cons, List.nodup_cons] at hnd
    have ha : a.id ∉ l.map (fun x => x.id) :=
      hdis a.id (by simp)
    have step : putBatchRecords l (a :: as) = putBatchRecords (l ++ [a]) as := by
      simp [putBatchRecords, putRecord_of_not_mem ha]
    rw [step, ih hnd.2]
    · simp
    · intro i hi
      simp only [List.map_append, List.mem_append, not_or]
      refine ⟨fun hmem => hdis i (by simp [hi]) hmem, ?_⟩
      simp only [List.map_cons, List.map_nil, List.mem_singleton]
      intro hia
      exact hnd.1 (hia ▸ hi)

theorem putBatchRecords_nil_of_nodup {rs : List VectorRecord}
    (h : (rs.map (fun x => x.id)).Nodup) : putBatchRecords [] rs = rs := by
  simpa using putBatchRecords_disjoint h (by simp)

/-! ### Metadata lemmas -/

theorem mget_mset_self (m : Metadata) (k : String) (v : MetaVal) :
    mget (mset m k v) k = some v := by
  induction m with
  | nil => simp [mset, mget]
  | cons a as ih =>
    by_cases hk : a.1 = k
    · simp [mset, hk, mget]
    · simp [mset, hk, mget, ih]

theorem mget_mset_other (m : Metadata) {k k' : String} (v : MetaVal) (h : k ≠ k') :
    mget (mset m k v) k' = mget m k' := by
  induction m with
  | nil => simp [mset, mget, h]
  | cons a as ih =>
    by_cases hk : a.1 = k
    · simp [mset, hk, mget, h, ih]
    · simp only [mset, if_neg hk, mget]
      by_cases hk' : a.1 = k' <;> simp [hk', ih]

/-- The last-written value of a key in a field list (later JavaScript literal
fields win). -/
def mgetLast (m : Metadata) (k : String) : Option MetaVal :=
  mget m.reverse k

theorem mget_append (l1 l2 : Metadata) (k : String) :
    mget (l1 ++ l2) k = (mget l1 k).orElse (fun _ => mget l2 k) := by
  induction l1 with
  | nil => simp [mget, Option.orElse]
  | cons a as ih =>
    by_cases hk : a.1 = k
    · simp [mget, hk, Option.orElse]
    · simp [mget, hk, ih]

theorem mget_mergeMeta (m1 m2 : Metadata) (k : String) :
    mget (mergeMeta m1 m2) k = (mgetLast m2 k).orElse (fun _ => mget m1 k) := by
  induction m2 generalizing m1 with
  | nil => simp [mergeMeta, mgetLast, mget]
  | cons a as ih =>
    have step : mergeMeta m1 (a :: as) = mergeMeta (mset m1 a.1 a.2) as := by
      simp [mergeMeta]
    rw [step, ih]
    have hlast : mgetLast (a :: as) k = (mgetLast as k).orElse (fun _ => mget [a] k) := by
      simp only [mgetLast, List.reverse_cons]
      exact mget_append _ _ _
    rw [hlast]
    rcases hcase : mgetLast as k with _ | v
    · by_cases hk : a.1 = k
      · subst hk
        simp [mget, mget_mset_self, Option.orElse]
      · simp [mget, hk, mget_mset_other _ _ hk, Option.orElse]
    · simp [Option.orElse]

/-! ### Sorting lemmas for the modelled index search -/

theorem orderedInsert_of_forall {α : Type} (r : α → α → Prop) [DecidableRel r]
    (a : α) (l : List α) (h : ∀ x ∈ l, r a x) : l.orderedInsert r a = a :: l := by
  cases l with
  | nil => rfl
  | cons b bs => exact List.orderedInsert_of_le r bs (h b (List.mem_cons_self b bs))

theorem insertionSort_head_of_dominant {α : Type} (r : α → α → Prop) [DecidableRel r]
    (a : α) (l : List α) (ha : a ∈ l) (hrefl : r a a)
    (hdom : ∀ x ∈ l, x ≠ a → r a x ∧ ¬ r x a) :
    ∃ t, l.insertionSort r = a :: t := by
  induction l with
  | nil => cases ha
  | cons b bs ih =>
    by_cases hb : b = a
    · subst hb
      refine ⟨bs.insertionSort r, ?_⟩
      simp only [List.insertionSort]
      refine orderedInsert_of_forall r b _ ?_
      intro x hx
      have hxbs : x ∈ bs := (List.mem_insertionSort r).1 hx
      by_cases hxa : x = b
      · exact hxa ▸ hrefl
      · exact (hdom x (List.mem_cons_of_mem _ hxbs) hxa).1
    · have habs : a ∈ bs := by
        rcases List.mem_cons.1 ha with h' | h'
        · exact absurd h'.symm hb
        · exact h'
      rcases ih habs (fun x hx hxa => hdom x (List.mem_cons_of_mem _ hx) hxa) with ⟨t, ht⟩
      refine ⟨List.orderedInsert r b t, ?_⟩
      have hnba : ¬ r b a := (hdom b (List.mem_cons_self b bs) hb).2
      simp only [List.insertionSort, ht, List.orderedInsert, if_neg hnba]

/-! ### Index-operation lemmas -/

theorem annAddBatch_ok_eq {dims : Nat} {rs : List VectorRecord} :
    ∀ {idx idx' : List VectorRecord}, annAddBatch dims idx rs = .ok idx' →
    idx' = putBatchRecords idx rs := by
  induction rs with
  | nil =>
    intro idx idx' h
    simp only [annAddBatch] at h
    cases h
    rfl
  | cons a as ih =>
    intro idx idx' h
    simp only [annAddBatch, annAdd] at h
    by_cases hlen : a.vector.length ≠ dims
    · simp [if_pos hlen] at h
    · simp only [if_neg hlen] at h
      exact ih h

theorem annAddBatch_of_valid {dims : Nat} {rs : List VectorRecord}
    (hval : ∀ r ∈ rs, r.vector.length = dims) :
    ∀ (idx : List VectorRecord), annAddBatch dims idx rs = .ok (putBatchRecords idx rs) := by
  induction rs with
  | nil => intro idx; rfl
  | cons a as ih =>
    intro idx
    have ha : a.vector.length = dims := hval a (List.mem_cons_self a as)
    have hadd : annAdd dims idx a = .ok (putRecord idx a) := by
      simp [annAdd, ha]
    have hstep : putBatchRecords idx (a :: as) = putBatchRecords (putRecord idx a) as := by
      simp [putBatchRecords]
    simp only [annAddBatch, hadd, hstep]
    exact ih (fun r hr => hval r (List.mem_cons_of_mem _ hr)) (putRecord idx a)

theorem generateId_ne_empty (now : Nat) (rnd : String) : generateId now rnd ≠ "" := by
  intro h
  have hlen := congrArg String.length h
  simp only [generateId, String.length_append] at hlen
  have hdash : ("-").length = 1 := rfl
  have hempty : ("" : String).length = 0 := rfl
  rw [hdash, hempty] at hlen
  omega

/-! ### Reachability and the coordinator invariant -/

/-- Well-formedness maintained by the write path: positive dimensionality, index
membership equal to storage contents, no duplicate ids, every stored record of
the configured dimension with a non-empty id and a positive timestamp, and
every cached embedding of the configured dimension and equal to the generator's
output for its text (pure memoization). -/
def WF (embed : String → List ℚ) (db : DB) : Prop :=
  0 < db.cfg.dims ∧
  db.index = db.storage ∧
  (db.storage.map (fun r => r.id)).Nodup ∧
  (∀ r ∈ db.storage, r.vector.length = db.cfg.dims ∧ r.id ≠ "" ∧ 0 < r.timestamp) ∧
  (∀ p ∈ db.ecache, p.2.length = db.cfg.dims ∧ p.2 = embed p.1)

/-- Database states reachable from a freshly initialized database by successful
`insert` / `insertBatch` calls at positive wall-clock times. -/
inductive Reachable (embed : String → List ℚ) : DB → Prop
  | init (dims : Nat) (hasBatch : Bool) (chunk : Option Nat) (hdims : 0 < dims) :
      Reachable embed ⟨⟨dims, hasBatch, chunk⟩, [], [], [], []⟩
  | insertStep (db db' : DB) (now : Nat) (rnd : String) (data : InsertData)
      (id : String) (effs : List Eff) (hdb : Reachable embed db) (hnow : 0 < now)
      (h : insert db embed now rnd data = (.ok id, db', effs)) : Reachable embed db'
  | insertBatchStep (db db' : DB) (now : Nat) (rnds : Nat → String)
      (data : List InsertData) (ids : List String) (effs : List Eff)
      (hdb : Reachable embed db) (hnow : 0 < now)
      (h : insertBatch db embed now rnds data = (.ok ids, db', effs)) : Reachable embed db'

theorem mem_alistPut {α : Type} {l : List (String × α)} {k : String} {v : α}
    {x : String × α} : x ∈ alistPut l k v → x = (k, v) ∨ x ∈ l := by
  induction l with
  | nil =>
    intro hp
    simp only [alistPut, List.mem_singleton] at hp
    exact Or.inl hp
  | cons b bs ihb =>
    intro hp
    by_cases hb : b.1 = k
    · simp only [alistPut, if_pos hb, List.mem_cons] at hp
      rcases hp with hp | hp
      · exact Or.inl hp
      · exact Or.inr (List.mem_cons_of_mem _ hp)
    · simp only [alistPut, if_neg hb, List.mem_cons] at hp
      rcases hp with hp | hp
      · exact Or.inr (hp ▸ List.mem_cons_self b bs)
      · rcases ihb hp with h' | h'
        · exact Or.inl h'
        · exact Or.inr (List.mem_cons_of_mem _ h')

theorem alistGet_mem {α : Type} {l : List (String × α)} {k : String} {v : α} :
    alistGet l k = some v → (k, v) ∈ l := by
  induction l with
  | nil => intro hc; simp [alistGet] at hc
  | cons b bs ihb =>
    intro hc
    by_cases hb : b.1 = k
    · simp only [alistGet, if_pos hb, Option.some.injEq] at hc
      exact (Prod.ext hb hc : b = (k, v)) ▸ List.mem_cons_self b bs
    · simp only [alistGet, if_neg hb] at hc
      exact List.mem_cons_of_mem _ (ihb hc)

theorem prepareVector_ok {db db1 : DB} {embed : String → List ℚ} {data : InsertData}
    {v : List ℚ} (hec : ∀ p ∈ db.ecache, p.2.length = db.cfg.dims)
    (h : prepareVector db embed data = (.ok v, db1)) :
    v.length = db.cfg.dims ∧ db1.cfg = db.cfg ∧ db1.storage = db.storage ∧
    db1.index = db.index ∧ db1.vcache = db.vcache ∧
    (∀ p ∈ db1.ecache, p.2.length = db.cfg.dims ∧ (p ∈ db.ecache ∨ p.2 = embed p.1)) := by
  rcases hv : data.vector with _ | pv
  · rcases ht : truthyStr data.text with _ | t
    · simp [prepareVector, hv, ht] at h
    · rcases hc : alistGet db.ecache t with _ | cached
      · by_cases hlen : (embed t).length ≠ db.cfg.dims
        · simp [prepareVector, hv, ht, hc, validateVector, if_pos hlen] at h
        · simp only [prepareVector, hv, ht, hc, validateVector, if_neg hlen,
            Prod.mk.injEq, Except.ok.injEq] at h
          refine ⟨h.1 ▸ not_ne_iff.1 hlen, by rw [← h.2], by rw [← h.2], by rw [← h.2],
            by rw [← h.2], ?_⟩
          intro p hp
          rw [← h.2] at hp
          simp only at hp
          rcases mem_alistPut hp with h' | h'
          · rw [h']
            exact ⟨not_ne_iff.1 hlen, Or.inr rfl⟩
          · exact ⟨hec p h', Or.inl h'⟩
      · simp only [prepareVector, hv, ht, hc, Prod.mk.injEq, Except.ok.injEq] at h
        exact ⟨h.1 ▸ hec _ (alistGet_mem hc), by rw [← h.2], by rw [← h.2], by rw [← h.2],
          by rw [← h.2],
          fun p hp => ⟨hec p (by rw [← h.2] at hp; exact hp),
            Or.inl (by rw [← h.2] at hp; exact hp)⟩⟩
  · by_cases hlen : pv.length ≠ db.cfg.dims
    · simp [prepareVector, hv, validateVector, if_pos hlen] at h
    · simp only [prepareVector, hv, validateVector, if_neg hlen,
        Prod.mk.injEq, Except.ok.injEq] at h
      exact ⟨h.1 ▸ not_ne_iff.1 hlen, by rw [← h.2], by rw [← h.2], by rw [← h.2],
        by rw [← h.2],
        fun p hp => ⟨hec p (by rw [← h.2] at hp; exact hp),
          Or.inl (by rw [← h.2] at hp; exact hp)⟩⟩

theorem insert_ok_shape {db db' : DB} {embed : String → List ℚ} {now : Nat}
    {rnd : String} {data : InsertData} {id : String} {effs : List Eff}
    (hec : ∀ p ∈ db.ecache, p.2.length = db.cfg.dims)
    (h : insert db embed now rnd data = (.ok id, db', effs)) :
    ∃ v : List ℚ, v.length = db.cfg.dims ∧
      id = generateId now rnd ∧
      db'.cfg = db.cfg ∧
      db'.storage = putRecord db.storage ⟨generateId now rnd, v, storedMetadata data now, now⟩ ∧
      db'.index = putRecord db.index ⟨generateId now rnd, v, storedMetadata data now, now⟩ ∧
      effs = [(if db.cfg.hasBatch then Eff.coalescerPut id else Eff.storagePut id),
        Eff.cacheSet id, Eff.indexAdd id] ∧
      (∀ p ∈ db'.ecache, p.2.length = db.cfg.dims ∧ (p ∈ db.ecache ∨ p.2 = embed p.1)) := by
  rcases hprep : prepareVector db embed data with ⟨res, db1⟩
  rcases res with e | v
  · simp [insert, hprep] at h
  · obtain ⟨hvlen, hcfg, hsto, hidx, hvc, hecn⟩ := prepareVector_ok hec hprep
    have hdims1 : db1.cfg.dims = db.cfg.dims := by rw [hcfg]
    have hadd : annAdd db1.cfg.dims db1.index
        ⟨generateId now rnd, v, storedMetadata data now, now⟩ =
        .ok (putRecord db1.index ⟨generateId now rnd, v, storedMetadata data now, now⟩) := by
      simp [annAdd, hdims1, hvlen]
    simp only [insert, hprep, hadd, Prod.mk.injEq, Except.ok.injEq] at h
    obtain ⟨hid, hdb, heffs⟩ := h
    refine ⟨v, hvlen, hid.symm, ?_, ?_, ?_, ?_, ?_⟩
    · rw [← hdb]; exact hcfg
    · rw [← hdb]; simp only; rw [hsto]
    · rw [← hdb]; simp only; rw [hidx]
    · rw [← heffs, ← hid, hcfg]
    · intro p hp
      rw [← hdb] at hp
      simp only at hp
      exact hecn p hp

theorem insertBatchLoop_ok {embed : String → List ℚ} {now : Nat} {rnds : Nat → String}
    {data : List InsertData} :
    ∀ {db db1 : DB} {i : Nat} {records : List VectorRecord},
    (∀ p ∈ db.ecache, p.2.length = db.cfg.dims) →
    insertBatchLoop embed now rnds db i data = (.ok records, db1) →
    db1.cfg = db.cfg ∧ db1.storage = db.storage ∧ db1.index = db.index ∧
    (∀ p ∈ db1.ecache, p.2.length = db.cfg.dims ∧ (p ∈ db.ecache ∨ p.2 = embed p.1)) ∧
    (∀ r ∈ records, r.vector.length = db.cfg.dims ∧ r.id ≠ "" ∧ r.timestamp = now) ∧
    List.Forall₂ (fun (d : InsertData) (r : VectorRecord) =>
      r.metadata = storedMetadata d now ∧ r.timestamp = now) data records := by
  induction data with
  | nil =>
    intro db db1 i records hec h
    simp only [insertBatchLoop, Prod.mk.injEq, Except.ok.injEq] at h
    refine ⟨by rw [← h.2], by rw [← h.2], by rw [← h.2],
      fun p hp => by rw [← h.2] at hp; exact ⟨hec p hp, Or.inl hp⟩, ?_, ?_⟩
    · intro r hr
      rw [← h.1] at hr
      cases hr
    · rw [← h.1]
      exact List.Forall₂.nil
  | cons item rest ih =>
    intro db db1 i records hec h
    rcases hprep : prepareVector db embed item with ⟨res, dbp⟩
    rcases res with e | v
    · simp [insertBatchLoop, hprep] at h
    · obtain ⟨hvlen, hcfg, hsto, hidx, hvc, hecn⟩ := prepareVector_ok hec hprep
      set rec0 : VectorRecord :=
        ⟨generateId now (rnds i), v, storedMetadata item now, now⟩ with hrec0
      set dbq : DB := { dbp with vcache := alistPut dbp.vcache rec0.id rec0 } with hdbq
      rcases hrec : insertBatchLoop embed now rnds dbq (i + 1) rest with ⟨res2, db2⟩
      rcases res2 with e | records2
      · simp only [insertBatchLoop, hprep, hrec, Prod.mk.injEq] at h
        exact absurd h.1 (by simp)
      · have hqcfg : dbq.cfg = db.cfg := hcfg
        have hec2 : ∀ p ∈ dbq.ecache, p.2.length = dbq.cfg.dims := by
          intro p hp
          rw [hqcfg]
          exact (hecn p hp).1
        obtain ⟨hcfg2, hsto2, hidx2, hec3, hrecs, hfa⟩ := ih hec2 hrec
        simp only [insertBatchLoop, hprep, hrec, Prod.mk.injEq, Except.ok.injEq] at h
        obtain ⟨hrecords, hdb1⟩ := h
        have hcfgd : db2.cfg = db.cfg := by rw [hcfg2, hqcfg]
        refine ⟨by rw [← hdb1]; exact hcfgd,
          by rw [← hdb1, hsto2]; exact hsto,
          by rw [← hdb1, hidx2]; exact hidx, ?_, ?_, ?_⟩
        · intro p hp
          rw [← hdb1] at hp
          obtain ⟨hl, hx⟩ := hec3 p hp
          rw [hqcfg] at hl
          refine ⟨hl, ?_⟩
          rcases hx with hx | hx
          · rcases (hecn p hx).2 with hy | hy
            · exact Or.inl hy
            · exact Or.inr hy
          · exact Or.inr hx
        · intro r hr
          rw [← hrecords] at hr
          rcases List.mem_cons.1 hr with hr' | hr'
          · subst hr'
            exact ⟨hvlen, generateId_ne_empty now (rnds i), rfl⟩
          · have := hrecs r hr'
            rw [hqcfg] at this
            exact this
        · rw [← hrecords]
          exact List.Forall₂.cons ⟨rfl, rfl⟩ hfa

theorem insertBatch_ok_shape {db db' : DB} {embed : String → List ℚ} {now : Nat}
    {rnds : Nat → String} {data : List InsertData} {ids : List String} {effs : List Eff}
    (hec : ∀ p ∈ db.ecache, p.2.length = db.cfg.dims)
    (h : insertBatch db embed now rnds data = (.ok ids, db', effs)) :
    db'.cfg = db.cfg ∧
    ∃ records : List VectorRecord,
      db'.storage = putBatchRecords db.storage records ∧
      db'.index = putBatchRecords db.index records ∧
      ids = records.map (fun r => r.id) ∧
      (∀ r ∈ records, r.vector.length = db.cfg.dims ∧ r.id ≠ "" ∧ r.timestamp = now) ∧
      List.Forall₂ (fun (d : InsertData) (r : VectorRecord) =>
        r.metadata = storedMetadata d now ∧ r.timestamp = now) data records ∧
      (∀ p ∈ db'.ecache, p.2.length = db.cfg.dims ∧ (p ∈ db.ecache ∨ p.2 = embed p.1)) := by
  rcases data with _ | ⟨item, rest⟩
  · simp only [insertBatch, Prod.mk.injEq, Except.ok.injEq] at h
    refine ⟨by rw [← h.2.1], [], ?_, ?_, ?_, by simp, List.Forall₂.nil, ?_⟩
    · rw [← h.2.1]; rfl
    · rw [← h.2.1]; rfl
    · rw [← h.1]; rfl
    · intro p hp; rw [← h.2.1] at hp; exact ⟨hec p hp, Or.inl hp⟩
  · rcases hloop : insertBatchLoop embed now rnds db 0 (item :: rest) with ⟨res, db1⟩
    rcases res with e | records
    · simp only [insertBatch, hloop, Prod.mk.injEq] at h
      exact absurd h.1 (by simp)
    · obtain ⟨hcfg1, hsto1, hidx1, hec1, hrecs, hfa⟩ := insertBatchLoop_ok hec hloop
      have hval : ∀ r ∈ records, r.vector.length =
          ({ db1 with storage := putBatchRecords db1.storage records } : DB).cfg.dims := by
        intro r hr
        have := (hrecs r hr).1
        simp only
        rw [hcfg1]
        exact this
      have hbatch := annAddBatch_of_valid hval
        ({ db1 with storage := putBatchRecords db1.storage records } : DB).index
      simp only [insertBatch, hloop, hbatch, Prod.mk.injEq, Except.ok.injEq] at h
      obtain ⟨hids, hdb, heffs⟩ := h
      refine ⟨?_, records, ?_, ?_, hids.symm, hrecs, hfa, ?_⟩
      · rw [← hdb]
        exact hcfg1
      · rw [← hdb]
        simp only
        rw [hsto1]
      · rw [← hdb]
        simp only
        rw [hidx1]
      · intro p hp
        rw [← hdb] at hp
        exact hec1 p hp

/-- Every reachable database state satisfies the coordinator invariant. -/
theorem reachable_wf {embed : String → List ℚ} {db : DB}
    (h : Reachable embed db) : WF embed db := by
  induction h with
  | init dims hasBatch chunk hdims =>
    exact ⟨hdims, rfl, by simp, by simp, by simp⟩
  | insertStep db db' now rnd data id effs hdb hnow hstep ih =>
    obtain ⟨hd, hidxsto, hnodup, hrecs, hec⟩ := ih
    obtain ⟨v, hvlen, hid, hcfg, hsto, hidx, heffs, hecn⟩ :=
      insert_ok_shape (fun p hp => (hec p hp).1) hstep
    refine ⟨by rw [hcfg]; exact hd, ?_, ?_, ?_, ?_⟩
    · rw [hidx, hsto, hidxsto]
    · rw [hsto]
      exact nodup_ids_putRecord hnodup
    · intro r hr
      rw [hsto] at hr
      rw [hcfg]
      rcases mem_putRecord hr with hr' | hr'
      · subst hr'
        exact ⟨hvlen, generateId_ne_empty now rnd, hnow⟩
      · exact hrecs r hr'
    · intro p hp
      rw [hcfg]
      obtain ⟨hl, hx⟩ := hecn p hp
      refine ⟨hl, ?_⟩
      rcases hx with hx | hx
      · exact (hec p hx).2
      · exact hx
  | insertBatchStep db db' now rnds data ids effs hdb hnow hstep ih =>
    obtain ⟨hd, hidxsto, hnodup, hrecs, hec⟩ := ih
    obtain ⟨hcfg, records, hsto, hidx, hids, hrecords, hfa, hecn⟩ :=
      insertBatch_ok_shape (fun p hp => (hec p hp).1) hstep
    refine ⟨by rw [hcfg]; exact hd, ?_, ?_, ?_, ?_⟩
    · rw [hidx, hsto, hidxsto]
    · rw [hsto]
      exact nodup_ids_putBatchRecords hnodup
    · intro r hr
      rw [hsto] at hr
      rw [hcfg]
      rcases mem_putBatchRecords hr with hr' | hr'
      · exact hrecs r hr'
      · obtain ⟨h1, h2, h3⟩ := hrecords r hr'
        exact ⟨h1, h2, h3 ▸ hnow⟩
    · intro p hp
      rw [hcfg]
      obtain ⟨hl, hx⟩ := hecn p hp
      refine ⟨hl, ?_⟩
      rcases hx with hx | hx
      · exact (hec p hx).2
      · exact hx

theorem convertRecords_of_wf {dims now : Nat} {l : List VectorRecord}
    (h : ∀ r ∈ l, r.vector.length = dims ∧ r.id ≠ "" ∧ 0 < r.timestamp) :
    convertRecords dims now l = .ok l := by
  induction l with
  | nil => rfl
  | cons r rest ih =>
    obtain ⟨hlen, hid, hts⟩ := h r (List.mem_cons_self r rest)
    have hrest := ih (fun x hx => h x (List.mem_cons_of_mem _ hx))
    have hts0 : ¬ r.timestamp = 0 := Nat.pos_iff_ne_zero.1 hts
    simp only [convertRecords, if_neg hid, hlen, ne_eq, not_true_eq_false, if_neg,
      hrest, if_neg hts0, if_false]


/-- The envelope produced by `exportDb db now true`. -/
def exportEnvOf (db : DB) (now : Nat) : ExportData :=
  { version := "1.0.0",
    vectors := some db.storage,
    index := some (SerializedIndex.valid db.cfg.dims db.index),
    metadata := some {
      exportedAt := now,
      vectorCount := (db.storage.length : Int),
      dimensions := (db.cfg.dims : Int) } }

theorem exportDb_eq (db : DB) (now : Nat) :
    exportDb db now true = (.ok (exportEnvOf db now), db,
      (if db.cfg.hasBatch then [Eff.coalescerFlush] else []) ++
        [Eff.storageGetAll] ++ [Eff.indexSerialize]) := rfl

theorem import_export_ok {embed : String → List ℚ} {db : DB} (hwf : WF embed db)
    (now1 now2 : Nat) :
    ∃ effs2 : List Eff,
      importDb db now2 (exportEnvOf db now1) {} =
        (.ok (), ⟨db.cfg, db.storage, db.index, [], []⟩, effs2) := by
  obtain ⟨hd, hidxsto, hnodup, hrecs, hec⟩ := hwf
  have hdim_pos : ¬ ((db.cfg.dims : Int) ≤ 0) := not_le.2 (by exact_mod_cast hd)
  have hcnt : ¬ ((db.storage.length : Int) < 0) := not_lt.2 (Int.natCast_nonneg _)
  have hvaldata : validateExportData (exportEnvOf db now1) = .ok () := by
    simp only [validateExportData, exportEnvOf]
    rw [if_neg (by decide), if_neg hdim_pos, if_neg hcnt]
  have hver : validateVersionCompatibility "1.0.0" = .ok false := by decide
  have hconv : convertRecords db.cfg.dims now2 db.storage = .ok db.storage :=
    convertRecords_of_wf (fun r hr => hrecs r hr)
  have hdes : annDeserialize db.cfg.dims (.valid db.cfg.dims db.index) = .ok db.index := by
    simp [annDeserialize]
  have hput : putBatchRecords [] db.storage = db.storage :=
    putBatchRecords_nil_of_nodup hnodup
  simp only [exportEnvOf] at hvaldata hdes
  refine ⟨(if db.cfg.hasBatch then [Eff.coalescerFlush] else []) ++
    [Eff.storageClear, Eff.indexClear, Eff.cacheClear,
      Eff.storagePutBatch db.storage.length, Eff.indexDeserializeCall], ?_⟩
  simp [importDb, exportEnvOf, hvaldata, hver, hdes, clearDb, hconv, hput]

theorem search_fst_ecache_irrelevant {embed : String → List ℚ} {db : DB}
    (hx : ∀ p ∈ db.ecache, p.2 = embed p.1) (q : SearchQuery) :
    (search ⟨db.cfg, db.storage, db.index, [], []⟩ embed q).1 = (search db embed q).1 := by
  rcases hv : q.vector with _ | v
  · rcases ht : truthyStr q.text with _ | t
    · simp [search, hv, ht]
    · rcases hc : alistGet db.ecache t with _ | cached
      · simp only [search, hv, ht, hc, alistGet]
        cases annSearch db.cfg.dims db.index (embed t) q.k q.filter <;> rfl
      · have hce : cached = embed t := hx _ (alistGet_mem hc)
        simp only [search, hv, ht, hc, alistGet, hce]
        cases annSearch db.cfg.dims db.index (embed t) q.k q.filter <;> rfl
  · simp only [search, hv]
    cases annSearch db.cfg.dims db.index v q.k q.filter <;> rfl

/-- Claim C1: for every database state reachable by `insert`/`insertBatch`, exporting
and then importing the export (with `clearExisting = true`) succeeds and yields
a database equal to the original in record set (ids, vectors, metadata and
timestamps all preserved), whose search behaviour coincides with the original
on every query, and whose re-export carries the same vector count and
dimensions metadata. -/
theorem C1_export_import_roundtrip {embed : String → List ℚ} {db : DB}
    (hreach : Reachable embed db) (now1 now2 : Nat) :
    ∃ (env : ExportData) (db2 : DB) (effs1 effs2 : List Eff),
      exportDb db now1 true = (.ok env, db, effs1) ∧
      importDb db now2 env { validateSchema := true, clearExisting := true } =
        (.ok (), db2, effs2) ∧
      db2.storage = db.storage ∧
      db2.index = db.index ∧
      (∀ q : SearchQuery, (search db2 embed q).1 = (search db embed q).1) ∧
      (∀ now3 : Nat, ∀ inc : Bool, ∃ env2 m m2,
        (exportDb db2 now3 inc).1 = .ok env2 ∧
        env.metadata = some m ∧ env2.metadata = some m2 ∧
        m2.vectorCount = m.vectorCount ∧ m2.dimensions = m.dimensions) := by
  have hwf := reachable_wf hreach
  obtain ⟨effs2, himp⟩ := import_export_ok hwf now1 now2
  refine ⟨exportEnvOf db now1, ⟨db.cfg, db.storage, db.index, [], []⟩, _, effs2,
    exportDb_eq db now1, himp, rfl, rfl, ?_, ?_⟩
  · exact search_fst_ecache_irrelevant (fun p hp => (hwf.2.2.2.2 p hp).2)
  · intro now3 inc
    exact ⟨_, _, _, rfl, rfl, rfl, rfl, rfl⟩

/-- Constant embedding generator used for concrete witnesses. -/
def embed0 : String → List ℚ := fun _ => []

/-- A concrete freshly initialized two-dimensional database. -/
def db0 : DB := ⟨⟨2, false, none⟩, [], [], [], []⟩

/-- A concrete insert payload with a provided vector and caller metadata. -/
def data0 : InsertData := ⟨some [1, 0], none, some [("cat", MetaVal.str "A")]⟩

/-- The database after inserting `data0` into `db0` at time 5. -/
def db1c : DB := (insert db0 embed0 5 "abc" data0).2.1

theorem C1_export_import_roundtrip_witness :
    ∃ (env : ExportData) (db2 : DB) (effs1 effs2 : List Eff),
      exportDb db1c 9 true = (.ok env, db1c, effs1) ∧
      importDb db1c 11 env { validateSchema := true, clearExisting := true } =
        (.ok (), db2, effs2) ∧
      db2.storage = db1c.storage ∧
      db2.index = db1c.index ∧
      (∀ q : SearchQuery, (search db2 embed0 q).1 = (search db1c embed0 q).1) ∧
      (∀ now3 : Nat, ∀ inc : Bool, ∃ env2 m m2,
        (exportDb db2 now3 inc).1 = .ok env2 ∧
        env.metadata = some m ∧ env2.metadata = some m2 ∧
        m2.vectorCount = m.vectorCount ∧ m2.dimensions = m.dimensions) :=
  C1_export_import_roundtrip
    (Reachable.insertStep db0 db1c 5 "abc" data0 "5-abc"
      [Eff.storagePut "5-abc", Eff.cacheSet "5-abc", Eff.indexAdd "5-abc"]
      (Reachable.init 2 false none (by decide)) (by decide) (by decide)) 9 11

theorem convertRecords_err {dims : Nat} (now : Nat) {pre : List VectorRecord}
    {bad : VectorRecord} {rest : List VectorRecord}
    (hpre : ∀ r ∈ pre, r.id ≠ "" ∧ r.vector.length = dims)
    (hbadid : bad.id ≠ "") (hbadlen : bad.vector.length ≠ dims) :
    convertRecords dims now (pre ++ bad :: rest) =
      .error (.dimensionMismatch (dims : Int) (bad.vector.length : Int)) := by
  induction pre with
  | nil =>
    simp only [List.nil_append, convertRecords, if_neg hbadid, if_pos hbadlen]
  | cons r pre' ih =>
    obtain ⟨hid, hlen⟩ := hpre r (List.mem_cons_self r pre')
    have ih' := ih (fun x hx => hpre x (List.mem_cons_of_mem _ hx))
    simp only [List.cons_append, convertRecords, if_neg hid, hlen, ne_eq,
      not_true_eq_false, if_false, List.append_eq, ih']

/-- The vector-cache contents after the preparation loop of `insertBatch` has
processed the given vector-carrying items starting at item index `i`: each item
is pushed into the cache (keyed by its freshly generated id) before the next
item is validated. -/
def loopCacheFill (now : Nat) (rnds : Nat → String) :
    List (String × VectorRecord) → Nat → List InsertData → List (String × VectorRecord)
  | c, _, [] => c
  | c, i, d :: rest =>
    match d.vector with
    | some w => loopCacheFill now rnds
        (alistPut c (generateId now (rnds i))
          ⟨generateId now (rnds i), w, storedMetadata d now, now⟩) (i + 1) rest
    | none => c

theorem insertBatchLoop_vector_err (embed : String → List ℚ) (now : Nat)
    (rnds : Nat → String) {pre : List InsertData} {bad : InsertData} {rest : List InsertData}
    {v : List ℚ} (hbad : bad.vector = some v) :
    ∀ (db : DB) (i : Nat),
    (∀ d ∈ pre, ∃ w : List ℚ, d.vector = some w ∧ w.length = db.cfg.dims) →
    v.length ≠ db.cfg.dims →
    ∃ db1 : DB, insertBatchLoop embed now rnds db i (pre ++ bad :: rest) =
      (.error (.dimensionMismatch (db.cfg.dims : Int) (v.length : Int)), db1) ∧
      db1.cfg = db.cfg ∧ db1.storage = db.storage ∧ db1.index = db.index ∧
      db1.ecache = db.ecache ∧
      db1.vcache = loopCacheFill now rnds db.vcache i pre := by
  induction pre with
  | nil =>
    intro db i _ hlen
    refine ⟨db, ?_, rfl, rfl, rfl, rfl, rfl⟩
    simp only [List.nil_append, insertBatchLoop, prepareVector, hbad,
      validateVector, if_pos hlen]
  | cons d pre' ih =>
    intro db i hpre hlen
    obtain ⟨w, hw, hwlen⟩ := hpre d (List.mem_cons_self d pre')
    have hprep : prepareVector db embed d = (.ok w, db) := by
      simp [prepareVector, hw, validateVector, hwlen]
    set rec0 : VectorRecord :=
      ⟨generateId now (rnds i), w, storedMetadata d now, now⟩ with hrec0
    set dbq : DB := { db with vcache := alistPut db.vcache rec0.id rec0 } with hdbq
    have hqd : dbq.cfg.dims = db.cfg.dims := rfl
    obtain ⟨db1, hloop, hcfg, hsto, hidx, hc, hvc⟩ := ih dbq (i + 1)
      (fun x hx => by
        obtain ⟨w', hw', hwl'⟩ := hpre x (List.mem_cons_of_mem _ hx)
        exact ⟨w', hw', hwl'⟩)
      hlen
    refine ⟨db1, ?_, hcfg, hsto, hidx, hc, ?_⟩
    · simp only [hdbq, hrec0] at hloop
      simp only [List.cons_append, insertBatchLoop, hprep, List.append_eq, hloop]
    · simp only [hdbq, hrec0] at hvc
      rw [hvc]
      simp only [loopCacheFill, hw]

/-- Claim C2 (amended): every operation given a wrong-dimension vector fails with
`DimensionMismatch`; `insert`, `search`, and `update` leave the state exactly
unchanged, as does `import` when the envelope's `metadata.dimensions` disagrees
with the configured dimensionality; but `insertBatch` fails only after the
earlier items of the batch have already been pushed into the vector cache
(storage, index and embedding cache are unchanged), and `import` with
`clearExisting = true` whose envelope passes the header checks but contains an
individual wrong-dimension record fails only after the existing data has been
cleared. -/
theorem C2_dimension_mismatch_amended :
    (∀ (db : DB) (embed : String → List ℚ) (now : Nat) (rnd : String)
        (txt : Option String) (md : Option Metadata) (v : List ℚ),
      v.length ≠ db.cfg.dims →
      insert db embed now rnd ⟨some v, txt, md⟩ =
        (.error (.dimensionMismatch (db.cfg.dims : Int) (v.length : Int)), db, [])) ∧
    (∀ (db : DB) (embed : String → List ℚ) (q : SearchQuery) (v : List ℚ),
      q.vector = some v → v.length ≠ db.cfg.dims →
      search db embed q =
        (.error (.dimensionMismatch (db.cfg.dims : Int) (v.length : Int)), db)) ∧
    (∀ (db : DB) (embed : String → List ℚ) (now : Nat) (id : String)
        (data : InsertData) (r : VectorRecord) (v : List ℚ),
      getRecord db.storage id = some r → data.vector = some v →
      v.length ≠ db.cfg.dims →
      update db embed now id data =
        (.error (.dimensionMismatch (db.cfg.dims : Int) (v.length : Int)), db,
          [.storageGet id])) ∧
    (∀ (db : DB) (embed : String → List ℚ) (now : Nat) (rnds : Nat → String)
        (pre : List InsertData) (bad : InsertData) (rest : List InsertData) (v : List ℚ),
      bad.vector = some v →
      (∀ d ∈ pre, ∃ w : List ℚ, d.vector = some w ∧ w.length = db.cfg.dims) →
      v.length ≠ db.cfg.dims →
      ∃ db1 : DB, insertBatch db embed now rnds (pre ++ bad :: rest) =
        (.error (.dimensionMismatch (db.cfg.dims : Int) (v.length : Int)), db1, []) ∧
        db1.cfg = db.cfg ∧ db1.storage = db.storage ∧ db1.index = db.index ∧
        db1.ecache = db.ecache ∧
        db1.vcache = loopCacheFill now rnds db.vcache 0 pre) ∧
    (∀ (db : DB) (now : Nat) (env : ExportData) (opts : ImportOptions) (m : ExportMeta),
      validateExportData env = .ok () →
      validateVersionCompatibility env.version = .ok false →
      env.metadata = some m → m.dimensions ≠ (db.cfg.dims : Int) →
      importDb db now env opts =
        (.error (.dimensionMismatch (db.cfg.dims : Int) m.dimensions), db, [])) ∧
    (∀ (db : DB) (now : Nat) (env : ExportData) (m : ExportMeta)
        (pre : List VectorRecord) (bad : VectorRecord) (rest : List VectorRecord),
      validateExportData env = .ok () →
      validateVersionCompatibility env.version = .ok false →
      env.metadata = some m → m.dimensions = (db.cfg.dims : Int) →
      env.vectors = some (pre ++ bad :: rest) →
      ((pre ++ bad :: rest).length : Int) = m.vectorCount →
      (∀ r ∈ pre, r.id ≠ "" ∧ r.vector.length = db.cfg.dims) →
      bad.id ≠ "" → bad.vector.length ≠ db.cfg.dims →
      importDb db now env { validateSchema := true, clearExisting := true } =
        (.error (.dimensionMismatch (db.cfg.dims : Int) (bad.vector.length : Int)),
          (clearDb db).1, (clearDb db).2)) := by
  refine ⟨?_, ?_, ?_, ?_, ?_, ?_⟩
  · intro db embed now rnd txt md v hlen
    simp [insert, prepareVector, validateVector, if_pos hlen]
  · intro db embed q v hv hlen
    simp [search, hv, annSearch, if_pos hlen]
  · intro db embed now id data r v hget hv hlen
    have hsome : data.vector.isSome ∨ (truthyStr data.text).isSome := Or.inl (by simp [hv])
    simp [update, hget, hsome, prepareVector, hv, validateVector, if_pos hlen]
  · intro db embed now rnds pre bad rest v hbad hpre hlen
    obtain ⟨db1, hloop, hcfg, hsto, hidx, hc, hvc⟩ :=
      insertBatchLoop_vector_err embed now rnds hbad db 0 hpre hlen
    refine ⟨db1, ?_, hcfg, hsto, hidx, hc, hvc⟩
    obtain ⟨hd, tl, hdata⟩ : ∃ hd tl, pre ++ bad :: rest = hd :: tl := by
      cases pre <;> exact ⟨_, _, rfl⟩
    rw [hdata] at hloop ⊢
    simp only [insertBatch, hloop]
  · intro db now env opts m hval hver hmeta hdm
    rcases hopt : opts.validateSchema with _ | _
    · simp [importDb, hopt, hver, hmeta, if_pos hdm]
    · simp [importDb, hopt, hval, hver, hmeta, if_pos hdm]
  · intro db now env m pre bad rest hval hver hmeta hdm hvecs hcount hpre hbadid hbadlen
    have hconv : convertRecords db.cfg.dims now (pre ++ bad :: rest) =
        .error (.dimensionMismatch (db.cfg.dims : Int) (bad.vector.length : Int)) :=
      convertRecords_err now hpre hbadid hbadlen
    simp [importDb, hval, hver, hmeta, hvecs, hcount, hconv, hdm, clearDb]
    rw [← hcount]
    push_cast [List.length_append, List.length_cons]
    ring

/-- An envelope whose header passes every check against a 2-dimensional
database but whose single record has a 3-dimensional vector. -/
def envBad : ExportData :=
  { version := "1.0.0",
    vectors := some [⟨"x", [1, 2, 3], [], 7⟩],
    index := none,
    metadata := some { exportedAt := 0, vectorCount := 1, dimensions := 2 } }

/-- Claim C2 (counterexample to the claim as stated): importing an envelope
whose header checks pass but whose single record has a 3-dimensional vector
into a 2-dimensional database fails with `DimensionMismatch` — yet the
database has been cleared, so the observable state is NOT what it was before
the call; and `insertBatch` of a valid item followed by a wrong-dimension item
fails with `DimensionMismatch` — yet the first item is already in the
VectorCache, so the caches are NOT what they were before the call either. -/
theorem C2_dimension_mismatch_counterexample :
    (importDb db1c 13 envBad { validateSchema := true, clearExisting := true }).1 =
      .error (.dimensionMismatch 2 3) ∧
    ¬ (importDb db1c 13 envBad { validateSchema := true, clearExisting := true }).2.1.storage
        = db1c.storage ∧
    (insertBatch db0 embed0 7 (fun _ => "r")
        [⟨some [1, 0], none, none⟩, ⟨some [1, 2, 3], none, none⟩]).1 =
      .error (.dimensionMismatch 2 3) ∧
    ¬ (insertBatch db0 embed0 7 (fun _ => "r")
        [⟨some [1, 0], none, none⟩, ⟨some [1, 2, 3], none, none⟩]).2.1.vcache
        = db0.vcache := by
  refine ⟨?_, ?_, ?_, ?_⟩
  · decide
  · decide
  · decide
  · decide

theorem C2_dimension_mismatch_amended_witness :
    insert db0 embed0 5 "abc" ⟨some [1, 2, 3], none, none⟩ =
      (.error (.dimensionMismatch 2 3), db0, []) ∧
    search db0 embed0 ⟨some [1, 2, 3], none, 4, none⟩ =
      (.error (.dimensionMismatch 2 3), db0) ∧
    update db1c embed0 7 "5-abc" ⟨some [1, 2, 3], none, none⟩ =
      (.error (.dimensionMismatch 2 3), db1c, [.storageGet "5-abc"]) ∧
    (∃ db1 : DB, insertBatch db1c embed0 7 (fun _ => "r")
        [⟨some [1, 0], none, none⟩, ⟨some [1, 2, 3], none, none⟩] =
        (.error (.dimensionMismatch 2 3), db1, []) ∧
      db1.cfg = db1c.cfg ∧ db1.storage = db1c.storage ∧ db1.index = db1c.index ∧
      db1.ecache = db1c.ecache ∧
      db1.vcache = loopCacheFill 7 (fun _ => "r") db1c.vcache 0
        [⟨some [1, 0], none, none⟩]) ∧
    importDb db1c 13 { envBad with metadata := some ⟨0, 1, 512⟩ }
        { validateSchema := true, clearExisting := true } =
      (.error (.dimensionMismatch 2 512), db1c, []) ∧
    importDb db1c 13 envBad { validateSchema := true, clearExisting := true } =
      (.error (.dimensionMismatch 2 3), (clearDb db1c).1, (clearDb db1c).2) := by
  refine ⟨?_, ?_, ?_, ?_, ?_, ?_⟩
  · exact C2_dimension_mismatch_amended.1 db0 embed0 5 "abc" none none [1, 2, 3] (by decide)
  · exact C2_dimension_mismatch_amended.2.1 db0 embed0 ⟨some [1, 2, 3], none, 4, none⟩
      [1, 2, 3] rfl (by decide)
  · exact C2_dimension_mismatch_amended.2.2.1 db1c embed0 7 "5-abc"
      ⟨some [1, 2, 3], none, none⟩ ⟨"5-abc", [1, 0],
        [("cat", MetaVal.str "A"), ("content", MetaVal.undef),
          ("timestamp", MetaVal.num 5)], 5⟩ [1, 2, 3] (by decide) rfl (by decide)
  · exact C2_dimension_mismatch_amended.2.2.2.1 db1c embed0 7 (fun _ => "r")
      [⟨some [1, 0], none, none⟩] ⟨some [1, 2, 3], none, none⟩ [] [1, 2, 3] rfl
      (by intro d hd; refine ⟨[1, 0], ?_, by decide⟩
          simp only [List.mem_singleton] at hd
          rw [hd]) (by decide)
  · exact C2_dimension_mismatch_amended.2.2.2.2.1 db1c 13
      { envBad with metadata := some ⟨0, 1, 512⟩ }
      { validateSchema := true, clearExisting := true } ⟨0, 1, 512⟩
      (by decide) (by decide) rfl (by decide)
  · exact C2_dimension_mismatch_amended.2.2.2.2.2 db1c 13 envBad ⟨0, 1, 2⟩
      [] ⟨"x", [1, 2, 3], [], 7⟩ [] (by decide) (by decide) rfl (by decide) rfl
      (by decide) (by intro r hr; cases hr) (by decide) (by decide)

theorem getRecord_isSome_iff {l : List VectorRecord} {id : String} :
    (getRecord l id).isSome ↔ id ∈ l.map (fun r => r.id) := by
  induction l with
  | nil => simp [getRecord]
  | cons a as ih =>
    by_cases ha : a.id = id
    · simp [getRecord, ha]
    · have hne : ¬ id = a.id := fun h => ha h.symm
      simp [getRecord, ha, hne, ih]

/-- Claim C7: `delete(id)` returns true exactly when the id existed in Storage; on a
hit the entry is removed from Storage, the VectorCache and the AnnIndex; on a
miss neither the cache nor the index (nor storage) is touched. -/
theorem C7_delete_cache_index (db : DB) (id : String) :
    ((deleteOp db id).1 = .ok true ↔ id ∈ db.storage.map (fun r => r.id)) ∧
    ((deleteOp db id).1 = .ok false ↔ id ∉ db.storage.map (fun r => r.id)) ∧
    (id ∈ db.storage.map (fun r => r.id) →
      (deleteOp db id).2.1 =
        { db with
          storage := eraseRecord db.storage id,
          vcache := alistDrop db.vcache id,
          index := eraseRecord db.index id }) ∧
    (id ∉ db.storage.map (fun r => r.id) → (deleteOp db id).2.1 = db) := by
  rcases hget : getRecord db.storage id with _ | r
  · have hmem : id ∉ db.storage.map (fun r => r.id) := by
      rw [← getRecord_isSome_iff, hget]
      simp
    refine ⟨?_, ?_, ?_, ?_⟩
    · simp [deleteOp, hget, hmem]
    · simp [deleteOp, hget, hmem]
    · intro h; exact absurd h hmem
    · intro _; simp [deleteOp, hget]
  · have hmem : id ∈ db.storage.map (fun r => r.id) := by
      rw [← getRecord_isSome_iff, hget]
      rfl
    refine ⟨?_, ?_, ?_, ?_⟩
    · simp [deleteOp, hget, hmem]
    · simp [deleteOp, hget, hmem]
    · intro _; simp [deleteOp, hget]
    · intro h; exact absurd hmem h

theorem C7_delete_cache_index_witness :
    ((deleteOp db1c "5-abc").1 = .ok true ↔ "5-abc" ∈ db1c.storage.map (fun r => r.id)) ∧
    ("zzz" ∉ db1c.storage.map (fun r => r.id) → (deleteOp db1c "zzz").2.1 = db1c) :=
  ⟨(C7_delete_cache_index db1c "5-abc").1,
    (C7_delete_cache_index db1c "zzz").2.2.2⟩

/-- Claim C6: `update` on an absent id returns false and changes nothing; on a present
id it fetches the record, rewrites it via a direct `Storage.put` (not the
coalescer) followed by index remove-then-add (as the effect trace shows),
returns true, bumps the record timestamp to the write time, merges sanitized
metadata over the existing metadata (new keys win, all other keys preserved),
keeps the stored vector when the partial update carries neither `vector` nor
(truthy) `text`, and regenerates the vector when a `vector` or `text` is
supplied. -/
theorem C6_update_read_modify_write :
    (∀ (db : DB) (embed : String → List ℚ) (now : Nat) (id : String) (data : InsertData),
      getRecord db.storage id = none →
      update db embed now id data = (.ok false, db, [.storageGet id])) ∧
    (∀ (db : DB) (embed : String → List ℚ) (now : Nat) (id : String) (data : InsertData)
        (existing : VectorRecord),
      getRecord db.storage id = some existing →
      data.vector = none → truthyStr data.text = none →
      existing.vector.length = db.cfg.dims →
      ∃ updated : VectorRecord,
        update db embed now id data =
          (.ok true,
           { db with
             storage := putRecord db.storage updated,
             index := putRecord (eraseRecord db.index id) updated },
           [.storageGet id, .storagePut id, .indexRemove id, .indexAdd id]) ∧
        updated.id = id ∧
        updated.vector = existing.vector ∧
        updated.timestamp = now ∧
        mget updated.metadata "timestamp" = some (MetaVal.num (now : ℚ)) ∧
        (∀ k, k ≠ "content" → k ≠ "timestamp" →
          mget updated.metadata k =
            (mgetLast (sanitizeMetadata data.metadata) k).orElse
              (fun _ => mget existing.metadata k))) ∧
    (∀ (db : DB) (embed : String → List ℚ) (now : Nat) (id : String) (data : InsertData)
        (existing : VectorRecord) (v : List ℚ),
      getRecord db.storage id = some existing →
      data.vector = some v → v.length = db.cfg.dims →
      ∃ updated : VectorRecord,
        update db embed now id data =
          (.ok true,
           { db with
             storage := putRecord db.storage updated,
             index := putRecord (eraseRecord db.index id) updated },
           [.storageGet id, .storagePut id, .indexRemove id, .indexAdd id]) ∧
        updated.id = id ∧
        updated.vector = v ∧
        updated.timestamp = now) ∧
    (∀ (db : DB) (embed : String → List ℚ) (now : Nat) (id : String) (data : InsertData)
        (existing : VectorRecord) (t : String),
      getRecord db.storage id = some existing →
      data.vector = none → truthyStr data.text = some t →
      alistGet db.ecache t = none → (embed t).length = db.cfg.dims →
      ∃ updated : VectorRecord,
        update db embed now id data =
          (.ok true,
           { db with
             ecache := alistPut db.ecache t (embed t),
             storage := putRecord db.storage updated,
             index := putRecord (eraseRecord db.index id) updated },
           [.storageGet id, .storagePut id, .indexRemove id, .indexAdd id]) ∧
        updated.id = id ∧
        updated.vector = embed t ∧
        updated.timestamp = now) := by
  refine ⟨?_, ?_, ?_, ?_⟩
  · intro db embed now id data hget
    simp [update, hget]
  · intro db embed now id data existing hget hv ht hlen
    have hsome : ¬ (data.vector.isSome ∨ (truthyStr data.text).isSome) := by
      simp [hv, ht]
    refine ⟨⟨id, existing.vector,
      mset (mset (mergeMeta existing.metadata
        (match data.metadata with | some m => sanitizeMetadata (some m) | none => []))
        "content" (match data.text with
          | some t => MetaVal.str t
          | none => (mget existing.metadata "content").getD MetaVal.undef))
        "timestamp" (MetaVal.num (now : ℚ)), now⟩,
      ?_, rfl, rfl, rfl, mget_mset_self _ _ _, ?_⟩
    · simp [update, hget, hsome, annAdd, hlen]
    · intro k hkc hkt
      have h1 := mget_mset_other (mset (mergeMeta existing.metadata
        (match data.metadata with | some m => sanitizeMetadata (some m) | none => []))
        "content" (match data.text with
          | some t => MetaVal.str t
          | none => (mget existing.metadata "content").getD MetaVal.undef))
        (MetaVal.num (now : ℚ)) (fun h => hkt h.symm)
      have h2 := mget_mset_other (mergeMeta existing.metadata
        (match data.metadata with | some m => sanitizeMetadata (some m) | none => []))
        (match data.text with
          | some t => MetaVal.str t
          | none => (mget existing.metadata "content").getD MetaVal.undef)
        (fun h => hkc h.symm)
      simp only [h1, h2, mget_mergeMeta]
      rcases data.metadata with _ | m <;> rfl
  · intro db embed now id data existing v hget hv hlen
    have hsome : data.vector.isSome ∨ (truthyStr data.text).isSome := Or.inl (by simp [hv])
    have hprep : prepareVector db embed data = (.ok v, db) := by
      simp [prepareVector, hv, validateVector, hlen]
    refine ⟨⟨id, v,
      mset (mset (mergeMeta existing.metadata
        (match data.metadata with | some m => sanitizeMetadata (some m) | none => []))
        "content" (match data.text with
          | some t => MetaVal.str t
          | none => (mget existing.metadata "content").getD MetaVal.undef))
        "timestamp" (MetaVal.num (now : ℚ)), now⟩, ?_, rfl, rfl, rfl⟩
    simp [update, hget, hsome, hprep, annAdd, hlen]
  · intro db embed now id data existing t hget hv ht hc hlen
    have hsome : data.vector.isSome ∨ (truthyStr data.text).isSome := Or.inr (by simp [ht])
    have hprep : prepareVector db embed data =
        (.ok (embed t), { db with ecache := alistPut db.ecache t (embed t) }) := by
      simp [prepareVector, hv, ht, hc, validateVector, hlen]
    refine ⟨⟨id, embed t,
      mset (mset (mergeMeta existing.metadata
        (match data.metadata with | some m => sanitizeMetadata (some m) | none => []))
        "content" (match data.text with
          | some t => MetaVal.str t
          | none => (mget existing.metadata "content").getD MetaVal.undef))
        "timestamp" (MetaVal.num (now : ℚ)), now⟩, ?_, rfl, rfl, rfl⟩
    simp [update, hget, hsome, hprep, annAdd, hlen]

theorem C6_update_read_modify_write_witness :
    update db1c embed0 7 "zzz" ⟨none, none, none⟩ = (.ok false, db1c, [.storageGet "zzz"]) ∧
    (∃ updated : VectorRecord,
      update db1c embed0 7 "5-abc" ⟨none, none, some [("cat", MetaVal.str "B")]⟩ =
        (.ok true,
         { db1c with
           storage := putRecord db1c.storage updated,
           index := putRecord (eraseRecord db1c.index "5-abc") updated },
         [.storageGet "5-abc", .storagePut "5-abc", .indexRemove "5-abc",
           .indexAdd "5-abc"]) ∧
      updated.id = "5-abc" ∧
      updated.vector = ([1, 0] : List ℚ) ∧
      updated.timestamp = 7 ∧
      mget updated.metadata "timestamp" = some (MetaVal.num (7 : ℚ)) ∧
      (∀ k, k ≠ "content" → k ≠ "timestamp" →
        mget updated.metadata k =
          (mgetLast [("cat", MetaVal.str "B")] k).orElse
            (fun _ => mget [("cat", MetaVal.str "A"), ("content", MetaVal.undef),
              ("timestamp", MetaVal.num 5)] k))) := by
  constructor
  · exact C6_update_read_modify_write.1 db1c embed0 7 "zzz" ⟨none, none, none⟩ (by decide)
  · exact C6_update_read_modify_write.2.1 db1c embed0 7 "5-abc"
      ⟨none, none, some [("cat", MetaVal.str "B")]⟩
      ⟨"5-abc", [1, 0], [("cat", MetaVal.str "A"), ("content", MetaVal.undef),
        ("timestamp", MetaVal.num 5)], 5⟩ (by decide) rfl rfl (by decide)

theorem getRecord_putRecord_self (l : List VectorRecord) (r : VectorRecord) :
    getRecord (putRecord l r) r.id = some r := by
  induction l with
  | nil => simp [putRecord, getRecord]
  | cons a as ih =>
    by_cases ha : a.id = r.id
    · simp [putRecord, ha, getRecord]
    · simp [putRecord, ha, getRecord, ih]

theorem filter_passes_none (l : List VectorRecord) :
    l.filter (fun r => passesFilter none r.metadata) = l := by
  induction l with
  | nil => rfl
  | cons a as ih => simp [List.filter, passesFilter, ih]

/-- Claim C9: when `insert` resolves successfully, the inserted record is already a
member of the AnnIndex of the resulting state (the index add is awaited before
the promise resolves), so any search issued against that state with the
record's vector, no filter, and `k` at least the index size observes the
insertion. -/
theorem C9_insert_visible_to_search {embed : String → List ℚ} {db db' : DB}
    {now : Nat} {rnd : String} {data : InsertData} {id : String} {effs : List Eff}
    (hreach : Reachable embed db)
    (h : insert db embed now rnd data = (.ok id, db', effs)) :
    ∃ r : VectorRecord, r ∈ db'.index ∧ r.id = id ∧
      ∀ k : Nat, db'.index.length ≤ k →
        ∃ res : List SearchResult,
          (search db' embed ⟨some r.vector, none, k, none⟩).1 = .ok res ∧
          id ∈ res.map (fun s => s.id) := by
  have hwf := reachable_wf hreach
  obtain ⟨v, hvlen, hid, hcfg, hsto, hidx, heffs, hecn⟩ :=
    insert_ok_shape (fun p hp => (hwf.2.2.2.2 p hp).1) h
  refine ⟨⟨generateId now rnd, v, storedMetadata data now, now⟩,
    by rw [hidx]; exact self_mem_putRecord _ _, hid.symm, ?_⟩
  intro k hk
  have hlen : v.length = db'.cfg.dims := by rw [hcfg]; exact hvlen
  have hann : annSearch db'.cfg.dims db'.index v k none =
      .ok (((db'.index.map (fun r =>
          (⟨r.id, dotScore v r.vector, r.metadata⟩ : SearchResult))).insertionSort
        resBefore).take k) := by
    simp [annSearch, hlen, filter_passes_none]
  have htake : (((db'.index.map (fun r =>
      (⟨r.id, dotScore v r.vector, r.metadata⟩ : SearchResult))).insertionSort
      resBefore).take k) = ((db'.index.map (fun r =>
      (⟨r.id, dotScore v r.vector, r.metadata⟩ : SearchResult))).insertionSort
      resBefore) := by
    apply List.take_of_length_le
    rw [List.length_insertionSort, List.length_map]
    exact hk
  refine ⟨(((db'.index.map (fun r =>
      (⟨r.id, dotScore v r.vector, r.metadata⟩ : SearchResult))).insertionSort
      resBefore).take k), ?_, ?_⟩
  · simp [search, hann]
  rw [htake]
  have hperm := (List.perm_insertionSort resBefore
    (db'.index.map (fun r => (⟨r.id, dotScore v r.vector, r.metadata⟩ : SearchResult))))
  rw [(hperm.map (fun s => s.id)).mem_iff, List.map_map]
  have hrecmem : (⟨generateId now rnd, v, storedMetadata data now, now⟩ : VectorRecord)
      ∈ db'.index := by
    rw [hidx]
    exact self_mem_putRecord _ _
  have := List.mem_map_of_mem
    ((fun s => s.id) ∘ (fun r => (⟨r.id, dotScore v r.vector, r.metadata⟩ : SearchResult)))
    hrecmem
  simpa [hid] using this

theorem C9_insert_visible_to_search_witness :
    ∃ r : VectorRecord, r ∈ db1c.index ∧ r.id = "5-abc" ∧
      ∀ k : Nat, db1c.index.length ≤ k →
        ∃ res : List SearchResult,
          (search db1c embed0 ⟨some r.vector, none, k, none⟩).1 = .ok res ∧
          "5-abc" ∈ res.map (fun s => s.id) :=
  C9_insert_visible_to_search (Reachable.init 2 false none (by decide))
    (by decide : insert db0 embed0 5 "abc" data0 = (.ok "5-abc", db1c,
      [Eff.storagePut "5-abc", Eff.cacheSet "5-abc", Eff.indexAdd "5-abc"]))

/-- The metadata value `insert`/`insertBatch` stores under `content`. -/
def contentOf (txt : Option String) : MetaVal :=
  match txt with
  | some t => MetaVal.str t
  | none => MetaVal.undef

theorem mget_storedMetadata_content (data : InsertData) (now : Nat) :
    mget (storedMetadata data now) "content" = some (contentOf data.text) := by
  unfold storedMetadata contentOf
  rw [mget_mset_other _ _ (by decide), mget_mset_self]

theorem mget_storedMetadata_timestamp (data : InsertData) (now : Nat) :
    mget (storedMetadata data now) "timestamp" = some (MetaVal.num (now : ℚ)) :=
  mget_mset_self _ _ _

/-- Claim C10: every record written by `insert`, `insertBatch`, or `update` has its
`content` and `timestamp` metadata keys set by the system — `content` to the
supplied text (`undefined` when inserting by vector; on `update` without new
text, the previously stored content) and `timestamp` to the write time —
regardless of any caller-supplied metadata under those keys. -/
theorem C10_reserved_metadata_keys :
    (∀ (db db' : DB) (embed : String → List ℚ) (now : Nat) (rnd : String)
        (data : InsertData) (id : String) (effs : List Eff),
      (∀ p ∈ db.ecache, p.2.length = db.cfg.dims) →
      insert db embed now rnd data = (.ok id, db', effs) →
      ∃ r : VectorRecord, getRecord db'.storage id = some r ∧
        mget r.metadata "content" = some (contentOf data.text) ∧
        mget r.metadata "timestamp" = some (MetaVal.num (now : ℚ))) ∧
    (∀ (db db' : DB) (embed : String → List ℚ) (now : Nat) (rnds : Nat → String)
        (data : List InsertData) (ids : List String) (effs : List Eff),
      (∀ p ∈ db.ecache, p.2.length = db.cfg.dims) →
      insertBatch db embed now rnds data = (.ok ids, db', effs) →
      ∃ records : List VectorRecord,
        db'.storage = putBatchRecords db.storage records ∧
        db'.index = putBatchRecords db.index records ∧
        ids = records.map (fun r => r.id) ∧
        List.Forall₂ (fun (d : InsertData) (r : VectorRecord) =>
          mget r.metadata "content" = some (contentOf d.text) ∧
          mget r.metadata "timestamp" = some (MetaVal.num (now : ℚ))) data records) ∧
    (∀ (db db' : DB) (embed : String → List ℚ) (now : Nat) (id : String)
        (data : InsertData) (res : Except Err Bool) (effs : List Eff),
      update db embed now id data = (res, db', effs) → res = .ok true →
      ∃ existing updated : VectorRecord,
        getRecord db.storage id = some existing ∧
        getRecord db'.storage id = some updated ∧
        mget updated.metadata "content" = some (match data.text with
          | some t => MetaVal.str t
          | none => (mget existing.metadata "content").getD MetaVal.undef) ∧
        mget updated.metadata "timestamp" = some (MetaVal.num (now : ℚ))) := by
  refine ⟨?_, ?_, ?_⟩
  · intro db db' embed now rnd data id effs hec h
    obtain ⟨v, hvlen, hid, hcfg, hsto, hidx, heffs, hecn⟩ := insert_ok_shape hec h
    refine ⟨⟨generateId now rnd, v, storedMetadata data now, now⟩, ?_, ?_, ?_⟩
    · rw [hsto, hid]
      exact getRecord_putRecord_self _ _
    · exact mget_storedMetadata_content data now
    · exact mget_storedMetadata_timestamp data now
  · intro db db' embed now rnds data ids effs hec h
    obtain ⟨hcfg, records, hsto, hidx, hids, hrecords, hfa, hecn⟩ :=
      insertBatch_ok_shape hec h
    refine ⟨records, hsto, hidx, hids, ?_⟩
    refine List.Forall₂.imp ?_ hfa
    intro d r hdr
    rw [hdr.1]
    exact ⟨mget_storedMetadata_content d now, mget_storedMetadata_timestamp d now⟩
  · intro db db' embed now id data res effs h hres
    subst hres
    rcases hget : getRecord db.storage id with _ | existing
    · simp [update, hget] at h
    · rcases hprep : (if data.vector.isSome ∨ (truthyStr data.text).isSome then
          prepareVector db embed data
        else (.ok existing.vector, db)) with ⟨pres, dbp⟩
      rcases pres with e | v
      · simp only [update, hget, hprep, Prod.mk.injEq] at h
        exact absurd h.1 (by simp)
      · rcases hadd : annAdd dbp.cfg.dims (eraseRecord dbp.index id)
            ⟨id, v,
              mset (mset (mergeMeta existing.metadata
                (match data.metadata with | some m => sanitizeMetadata (some m) | none => []))
                "content" (match data.text with
                  | some t => MetaVal.str t
                  | none => (mget existing.metadata "content").getD MetaVal.undef))
                "timestamp" (MetaVal.num (now : ℚ)), now⟩ with pa | idx
        · simp only [update, hget, hprep, hadd, Prod.mk.injEq] at h
          exact absurd h.1 (by simp)
        · simp only [update, hget, hprep, hadd, Prod.mk.injEq, Except.ok.injEq] at h
          refine ⟨existing,
            ⟨id, v,
              mset (mset (mergeMeta existing.metadata
                (match data.metadata with | some m => sanitizeMetadata (some m) | none => []))
                "content" (match data.text with
                  | some t => MetaVal.str t
                  | none => (mget existing.metadata "content").getD MetaVal.undef))
                "timestamp" (MetaVal.num (now : ℚ)), now⟩, rfl, ?_, ?_, ?_⟩
          · rw [← h.2.1]
            simp only
            exact getRecord_putRecord_self dbp.storage _
          · rw [mget_mset_other _ _ (by decide), mget_mset_self]
          · exact mget_mset_self _ _ _

/-- Embedding generator returning a fixed two-dimensional vector, used by
witnesses that exercise the text path. -/
def embed2 : String → List ℚ := fun _ => [1, 0]

theorem C10_reserved_metadata_keys_witness :
    (∃ r : VectorRecord, getRecord db1c.storage "5-abc" = some r ∧
      mget r.metadata "content" = some (contentOf none) ∧
      mget r.metadata "timestamp" = some (MetaVal.num (5 : ℚ))) ∧
    (∃ records : List VectorRecord,
      (insertBatch db0 embed0 7 (fun _ => "r")
        [⟨some [1, 0], none, some [("content", MetaVal.str "user")]⟩]).2.1.storage =
        putBatchRecords db0.storage records ∧
      (insertBatch db0 embed0 7 (fun _ => "r")
        [⟨some [1, 0], none, some [("content", MetaVal.str "user")]⟩]).2.1.index =
        putBatchRecords db0.index records ∧
      ["7-r"] = records.map (fun r => r.id) ∧
      List.Forall₂ (fun (d : InsertData) (r : VectorRecord) =>
        mget r.metadata "content" = some (contentOf d.text) ∧
        mget r.metadata "timestamp" = some (MetaVal.num (7 : ℚ)))
        [⟨some [1, 0], none, some [("content", MetaVal.str "user")]⟩] records) ∧
    (∃ existing updated : VectorRecord,
      getRecord db1c.storage "5-abc" = some existing ∧
      getRecord (update db1c embed2 7 "5-abc"
        ⟨none, some "hello", some [("timestamp", MetaVal.num 999)]⟩).2.1.storage "5-abc" =
        some updated ∧
      mget updated.metadata "content" = some (MetaVal.str "hello") ∧
      mget updated.metadata "timestamp" = some (MetaVal.num (7 : ℚ))) := by
  refine ⟨?_, ?_, ?_⟩
  · exact C10_reserved_metadata_keys.1 db0 db1c embed0 5 "abc" data0 "5-abc"
      [.storagePut "5-abc", .cacheSet "5-abc", .indexAdd "5-abc"]
      (by intro p hp; cases hp) (by decide)
  · exact C10_reserved_metadata_keys.2.1 db0
      (insertBatch db0 embed0 7 (fun _ => "r")
        [⟨some [1, 0], none, some [("content", MetaVal.str "user")]⟩]).2.1
      embed0 7 (fun _ => "r")
      [⟨some [1, 0], none, some [("content", MetaVal.str "user")]⟩] ["7-r"]
      (insertBatch db0 embed0 7 (fun _ => "r")
        [⟨some [1, 0], none, some [("content", MetaVal.str "user")]⟩]).2.2
      (by intro p hp; cases hp) (by decide)
  · exact C10_reserved_metadata_keys.2.2 db1c
      (update db1c embed2 7 "5-abc"
        ⟨none, some "hello", some [("timestamp", MetaVal.num 999)]⟩).2.1
      embed2 7 "5-abc" ⟨none, some "hello", some [("timestamp", MetaVal.num 999)]⟩
      (.ok true)
      (update db1c embed2 7 "5-abc"
        ⟨none, some "hello", some [("timestamp", MetaVal.num 999)]⟩).2.2
      (by decide) rfl

/-- Claim C3: importing a well-formed envelope whose serialized index is corrupted
does not throw: the import succeeds, falling back to rebuilding the index from
the imported records (the trace ends with the deserialize attempt followed by
`getAll`, `clear`, `addBatch`), the rebuilt index holds exactly the imported
records, and a search for a stored vector that strictly dominates the others
returns that record as the top result. -/
theorem C3_corrupt_index_rebuild {db : DB} {now : Nat} {env : ExportData}
    {m : ExportMeta} {vs : List VectorRecord} {s : String}
    (embed : String → List ℚ)
    (hval : validateExportData env = .ok ())
    (hver : validateVersionCompatibility env.version = .ok false)
    (hmeta : env.metadata = some m)
    (hdm : m.dimensions = (db.cfg.dims : Int))
    (hvecs : env.vectors = some vs)
    (hcount : (vs.length : Int) = m.vectorCount)
    (hcorrupt : env.index = some (.corrupt s))
    (hrecs : ∀ r ∈ vs, r.vector.length = db.cfg.dims ∧ r.id ≠ "" ∧ 0 < r.timestamp)
    (hnodup : (vs.map (fun r => r.id)).Nodup)
    (hne : vs ≠ []) :
    ∃ effs pre : List Eff,
      importDb db now env { validateSchema := true, clearExisting := true } =
        (.ok (), ⟨db.cfg, vs, vs, [], []⟩, effs) ∧
      effs = pre ++ [.indexDeserializeCall, .storageGetAll, .indexClear,
        .indexAddBatch vs.length] ∧
      (∀ r ∈ vs, (∀ r' ∈ vs, r' ≠ r →
          dotScore r.vector r'.vector < dotScore r.vector r.vector) →
        (search ⟨db.cfg, vs, vs, [], []⟩ embed ⟨some r.vector, none, 1, none⟩).1 =
          .ok [⟨r.id, dotScore r.vector r.vector, r.metadata⟩]) := by
  have hconv : convertRecords db.cfg.dims now vs = .ok vs := convertRecords_of_wf hrecs
  have hput : putBatchRecords [] vs = vs := putBatchRecords_nil_of_nodup hnodup
  have hbatch : annAddBatch db.cfg.dims [] vs = .ok vs := by
    rw [annAddBatch_of_valid (fun r hr => (hrecs r hr).1) [], hput]
  have hnemp : vs.isEmpty = false := by
    cases vs with
    | nil => exact absurd rfl hne
    | cons a as => rfl
  refine ⟨((if db.cfg.hasBatch then [Eff.coalescerFlush] else []) ++
      [Eff.storageClear, Eff.indexClear, Eff.cacheClear, Eff.storagePutBatch vs.length]) ++
      [Eff.indexDeserializeCall, Eff.storageGetAll, Eff.indexClear,
        Eff.indexAddBatch vs.length],
    (if db.cfg.hasBatch then [Eff.coalescerFlush] else []) ++
      [Eff.storageClear, Eff.indexClear, Eff.cacheClear, Eff.storagePutBatch vs.length],
    ?_, by simp, ?_⟩
  · simp [importDb, hval, hver, hmeta, hdm, hvecs, hcount, hconv, clearDb,
      annDeserialize, rebuildIndex, hcorrupt, hput, hnemp, hbatch]
  · intro r hr hdomin
    have hlen : r.vector.length = db.cfg.dims := (hrecs r hr).1
    have hann : annSearch db.cfg.dims vs r.vector 1 none =
        .ok (((vs.map (fun r' =>
            (⟨r'.id, dotScore r.vector r'.vector, r'.metadata⟩ : SearchResult))).insertionSort
          resBefore).take 1) := by
      simp [annSearch, hlen, filter_passes_none]
    have hhead : ∃ t, ((vs.map (fun r' =>
        (⟨r'.id, dotScore r.vector r'.vector, r'.metadata⟩ : SearchResult))).insertionSort
        resBefore) = (⟨r.id, dotScore r.vector r.vector, r.metadata⟩ : SearchResult) :: t := by
      apply insertionSort_head_of_dominant
      · exact List.mem_map_of_mem _ hr
      · exact Or.inr ⟨rfl, le_refl _⟩
      · intro x hx hxa
        rcases List.mem_map.1 hx with ⟨r'', hr'', hxr⟩
        have hner : r'' ≠ r := by
          intro hcontra
          exact hxa (by rw [← hxr, hcontra])
        have hscore : dotScore r.vector r''.vector < dotScore r.vector r.vector :=
          hdomin r'' hr'' hner
        constructor
        · left
          rw [← hxr]
          exact hscore
        · intro hres
          rcases hres with hlt | ⟨heq, _⟩
          · rw [← hxr] at hlt
            exact absurd hlt (not_lt.2 (le_of_lt hscore))
          · rw [← hxr] at heq
            simp only at heq
            exact absurd heq (ne_of_lt hscore)
    rcases hhead with ⟨t, ht⟩
    simp [search, hann, ht]

/-- The record set used by the C3 witness envelope. -/
def vs0 : List VectorRecord := [⟨"a", [1, 0], [], 3⟩, ⟨"b", [0, 1], [], 4⟩]

/-- A well-formed envelope for a 2-dimensional database whose serialized index
is corrupted bytes. -/
def envCorrupt : ExportData :=
  { version := "1.0.0",
    vectors := some vs0,
    index := some (.corrupt "garbage"),
    metadata := some { exportedAt := 1, vectorCount := 2, dimensions := 2 } }

theorem C3_corrupt_index_rebuild_witness :
    ∃ effs pre : List Eff,
      importDb db0 21 envCorrupt { validateSchema := true, clearExisting := true } =
        (.ok (), ⟨db0.cfg, vs0, vs0, [], []⟩, effs) ∧
      effs = pre ++ [.indexDeserializeCall, .storageGetAll, .indexClear,
        .indexAddBatch vs0.length] ∧
      (∀ r ∈ vs0, (∀ r' ∈ vs0, r' ≠ r →
          dotScore r.vector r'.vector < dotScore r.vector r.vector) →
        (search ⟨db0.cfg, vs0, vs0, [], []⟩ embed0 ⟨some r.vector, none, 1, none⟩).1 =
          .ok [⟨r.id, dotScore r.vector r.vector, r.metadata⟩]) :=
  C3_corrupt_index_rebuild embed0 (by decide) (by decide) rfl (by decide) rfl
    (by decide) rfl (by decide) (by decide) (by decide)

/-- The vector chunks among the items yielded by `exportStream`. -/
def vectorsChunks (items : List StreamItem) : List (List VectorRecord) :=
  items.filterMap (fun i => match i with
    | .vectorsItem recs => some recs
    | _ => none)

/-- A three-record one-dimensional database configured with `chunkSize = 2`. -/
def db3 : DB :=
  ⟨⟨1, false, some 2⟩,
   [⟨"a", [1], [], 1⟩, ⟨"b", [2], [], 2⟩, ⟨"c", [3], [], 3⟩],
   [⟨"a", [1], [], 1⟩, ⟨"b", [2], [], 2⟩, ⟨"c", [3], [], 3⟩],
   [], []⟩

/-- Claim C4: evaluating `exportStream` on a database of 3 records with
`chunkSize = 2` shows the code yields the metadata item, then a SINGLE
`vectors` item containing all 3 records (exceeding `chunkSize`), then the index
item — one vector chunk instead of the `ceil(3 / 2) = 2` chunks of at most
`chunkSize` records that both the spec and the method's own documentation
describe (the scan callback accumulates into `chunk` and never yields or resets
it). -/
theorem C4_exportStream_single_chunk :
    exportStream db3 7 true =
      [.metadataItem "1.0.0" ⟨7, 3, 1⟩,
       .vectorsItem [⟨"a", [1], [], 1⟩, ⟨"b", [2], [], 2⟩, ⟨"c", [3], [], 3⟩],
       .indexItem (.valid 1 [⟨"a", [1], [], 1⟩, ⟨"b", [2], [], 2⟩, ⟨"c", [3], [], 3⟩])] ∧
    (vectorsChunks (exportStream db3 7 true)).length = 1 ∧
    (∃ c ∈ vectorsChunks (exportStream db3 7 true), 2 < c.length) ∧
    ¬ (vectorsChunks (exportStream db3 7 true)).length =
        (db3.storage.length + 2 - 1) / 2 := by
  refine ⟨by decide, by decide, ?_, by decide⟩
  exact ⟨[⟨"a", [1], [], 1⟩, ⟨"b", [2], [], 2⟩, ⟨"c", [3], [], 3⟩], by decide, by decide⟩

/-! ### C5: embedding model load retry -/

theorem initFrom_load_head (fail : Nat → Device → Bool) (m r fuel a : Nat)
    (dev : Device) (hfuel : 0 < fuel) :
    ∃ tl, (initFrom fail m r fuel a dev).1 = .load dev :: tl := by
  cases fuel with
  | zero => cases hfuel
  | succ f =>
    by_cases hf : fail a dev
    · simp only [initFrom, if_pos hf]
      by_cases hgp : dev = Device.webgpu ∧ a + 1 = 1
      · rw [if_pos hgp]
        exact ⟨_, rfl⟩
      · rw [if_neg hgp]
        by_cases hlt : a + 1 < m
        · rw [if_pos hlt]
          exact ⟨_, rfl⟩
        · rw [if_neg hlt]
          exact ⟨[], rfl⟩
    · simp only [initFrom, if_neg hf]
      exact ⟨[], rfl⟩

theorem countLoads_initFrom_le (fail : Nat → Device → Bool) (m r : Nat) :
    ∀ (fuel a : Nat) (dev : Device),
      countLoads (initFrom fail m r fuel a dev).1 ≤ fuel := by
  intro fuel
  induction fuel with
  | zero => intro a dev; simp [initFrom, countLoads]
  | succ f ih =>
    intro a dev
    by_cases hf : fail a dev
    · simp only [initFrom, if_pos hf]
      by_cases hgp : dev = Device.webgpu ∧ a + 1 = 1
      · rw [if_pos hgp]
        simp only [countLoads]
        have := ih (a + 1) Device.wasm
        omega
      · rw [if_neg hgp]
        by_cases hlt : a + 1 < m
        · rw [if_pos hlt]
          simp only [countLoads]
          have := ih (a + 1) dev
          omega
        · rw [if_neg hlt]
          simp only [countLoads]
          omega
    · simp only [initFrom, if_neg hf, countLoads]
      omega

theorem initFrom_allFail_wasm (m r : Nat) :
    ∀ (fuel a : Nat), a + fuel = m →
      countLoads (initFrom (fun _ _ => true) m r fuel a Device.wasm).1 = fuel ∧
      (initFrom (fun _ _ => true) m r fuel a Device.wasm).2 = false ∧
      sleepsOf (initFrom (fun _ _ => true) m r fuel a Device.wasm).1 =
        (List.range (fuel - 1)).map (fun k => r * 2 ^ (a + k)) := by
  intro fuel
  induction fuel with
  | zero => intro a _; simp [initFrom, countLoads, sleepsOf]
  | succ f ih =>
    intro a hm
    have hgp : ¬ (Device.wasm = Device.webgpu ∧ a + 1 = 1) := by
      intro h
      cases h.1
    by_cases hlt : a + 1 < m
    · have hf : 0 < f := by omega
      obtain ⟨hcount, hres, hsleep⟩ := ih (a + 1) (by omega)
      simp only [initFrom, if_pos rfl, if_neg hgp, if_pos hlt]
      refine ⟨?_, hres, ?_⟩
      · simp only [countLoads]
        omega
      · simp only [sleepsOf, hsleep]
        obtain ⟨g, hg⟩ : ∃ g, f = g + 1 := ⟨f - 1, by omega⟩
        subst hg
        simp only [Nat.add_sub_cancel, List.range_succ_eq_map, List.map_cons,
          List.map_map]
        congr 1
        apply List.map_congr_left
        intro k _
        simp only [Function.comp_apply]
        have hk : a + 1 + k = a + (k + 1) := by omega
        rw [hk]
    · have hfz : f = 0 := by omega
      subst hfz
      simp only [initFrom, if_pos rfl, if_neg hgp, if_neg hlt]
      refine ⟨rfl, rfl, by simp [sleepsOf]⟩

/-- Claim C5 (counterexample to the claim as stated): with device `webgpu`,
`maxRetries = 3`, `retryDelay = 1000` and every load attempt failing, the
first retry (the wasm fallback) happens with no backoff sleep at all — no
sleep of `retryDelay * 2 ^ 0 = 1000` occurs anywhere in the trace, although a
retry does occur. -/
theorem C5_backoff_counterexample :
    initModel (fun _ _ => true) Device.webgpu 3 1000 =
      ([.load .webgpu, .load .wasm, .sleep 2000, .load .wasm], false) ∧
    InitStep.sleep (1000 * 2 ^ 0) ∉ (initModel (fun _ _ => true) Device.webgpu 3 1000).1 := by
  constructor
  · decide
  · decide

/-- Claim C5 (amended): the load loop makes at most `maxRetries` pipeline-load
attempts for any failure pattern; with device wasm and every attempt failing
it makes exactly `maxRetries` attempts, rejects, and sleeps
`retryDelay * 2 ^ k` before the k-th retry (0-based); with device webgpu the
first retry falls back to wasm immediately with no backoff sleep, subsequent
retries sleep `retryDelay * 2 ^ k` (k ≥ 1), and after `maxRetries` failed
attempts it rejects. -/
theorem C5_retry_backoff_amended (m r : Nat) :
    (∀ (fail : Nat → Device → Bool) (dev : Device),
      countLoads (initModel fail dev m r).1 ≤ m) ∧
    (0 < m →
      countLoads (initModel (fun _ _ => true) Device.wasm m r).1 = m ∧
      (initModel (fun _ _ => true) Device.wasm m r).2 = false ∧
      sleepsOf (initModel (fun _ _ => true) Device.wasm m r).1 =
        (List.range (m - 1)).map (fun k => r * 2 ^ k)) ∧
    (2 ≤ m →
      countLoads (initModel (fun _ _ => true) Device.webgpu m r).1 = m ∧
      (initModel (fun _ _ => true) Device.webgpu m r).2 = false ∧
      (initModel (fun _ _ => true) Device.webgpu m r).1.take 2 =
        [.load .webgpu, .load .wasm] ∧
      sleepsOf (initModel (fun _ _ => true) Device.webgpu m r).1 =
        (List.range (m - 2)).map (fun k => r * 2 ^ (k + 1))) := by
  refine ⟨?_, ?_, ?_⟩
  · intro fail dev
    exact countLoads_initFrom_le fail m r m 0 dev
  · intro hm
    obtain ⟨hcount, hres, hsleep⟩ := initFrom_allFail_wasm m r m 0 (by omega)
    exact ⟨hcount, hres, by simpa using hsleep⟩
  · intro hm
    obtain ⟨f', hf'⟩ : ∃ f', m = f' + 1 := ⟨m - 1, by omega⟩
    subst hf'
    have hstep : initModel (fun _ _ => true) Device.webgpu (f' + 1) r =
        (InitStep.load Device.webgpu ::
          (initFrom (fun _ _ => true) (f' + 1) r f' 1 Device.wasm).1,
         (initFrom (fun _ _ => true) (f' + 1) r f' 1 Device.wasm).2) := by
      simp [initModel, initFrom]
    obtain ⟨hcount, hres, hsleep⟩ := initFrom_allFail_wasm (f' + 1) r f' 1 (by omega)
    refine ⟨?_, ?_, ?_, ?_⟩
    · rw [hstep]
      simp only [countLoads]
      omega
    · rw [hstep]
      exact hres
    · rw [hstep]
      have hf0 : 0 < f' := by omega
      obtain ⟨tl, htl⟩ := initFrom_load_head (fun _ _ => true)
        (f' + 1) r f' 1 Device.wasm hf0
      rw [htl]
      rfl
    · rw [hstep]
      simp only [sleepsOf]
      rw [hsleep]
      have hmm : f' - 1 = f' + 1 - 2 := by omega
      rw [hmm]
      apply List.map_congr_left
      intro k _
      rw [Nat.add_comm 1 k]

theorem C5_retry_backoff_amended_witness :
    countLoads (initModel (fun _ _ => true) Device.wasm 3 1000).1 = 3 ∧
    sleepsOf (initModel (fun _ _ => true) Device.wasm 3 1000).1 = [1000, 2000] ∧
    (initModel (fun _ _ => true) Device.webgpu 3 1000).1.take 2 =
      [.load .webgpu, .load .wasm] := by
  obtain ⟨hb, hw, hg⟩ := C5_retry_backoff_amended 3 1000
  refine ⟨(hw (by decide)).1, ?_, (hg (by decide)).2.2.1⟩
  rw [(hw (by decide)).2.2]
  decide

theorem import_export_ver {embed : String → List ℚ} {db : DB} (hwf : WF embed db)
    (now1 now2 : Nat) (ver : String) (w : Bool)
    (hver : validateVersionCompatibility ver = .ok w) (hne : ¬ ver = "") :
    importDb db now2 { exportEnvOf db now1 with version := ver }
        { validateSchema := true, clearExisting := true } =
      (.ok (), ⟨db.cfg, db.storage, db.index, [], []⟩,
       (if w then [Eff.warn] else []) ++
         ((if db.cfg.hasBatch then [Eff.coalescerFlush] else []) ++
           [Eff.storageClear, Eff.indexClear, Eff.cacheClear,
             Eff.storagePutBatch db.storage.length, Eff.indexDeserializeCall])) := by
  obtain ⟨hd, hidxsto, hnodup, hrecs, hec⟩ := hwf
  have hdim_pos : ¬ ((db.cfg.dims : Int) ≤ 0) := not_le.2 (by exact_mod_cast hd)
  have hcnt : ¬ ((db.storage.length : Int) < 0) := not_lt.2 (Int.natCast_nonneg _)
  have hvaldata : validateExportData { exportEnvOf db now1 with version := ver } = .ok () := by
    simp only [validateExportData, exportEnvOf]
    rw [if_neg hne, if_neg hdim_pos, if_neg hcnt]
  have hconv : convertRecords db.cfg.dims now2 db.storage = .ok db.storage :=
    convertRecords_of_wf (fun r hr => (hrecs r hr))
  have hdes : annDeserialize db.cfg.dims (.valid db.cfg.dims db.index) = .ok db.index := by
    simp [annDeserialize]
  have hput : putBatchRecords [] db.storage = db.storage :=
    putBatchRecords_nil_of_nodup hnodup
  simp only [exportEnvOf] at hvaldata hdes
  simp [importDb, exportEnvOf, hvaldata, hver, hdes, clearDb, hconv, hput]

/-- One-part version envelope accepted by the schema check. -/
def envVer1 : ExportData :=
  { version := "1",
    vectors := some [],
    index := none,
    metadata := some { exportedAt := 0, vectorCount := 0, dimensions := 2 } }

/-- Claim C8 (counterexample to the claim as stated): a malformed version string
("1", no dot) passes `validateExportData` and makes `import` fail with the
`INVALID_VERSION` code — not the `INVALID_EXPORT_DATA` code the claim
requires for malformed envelopes. -/
theorem C8_version_counterexample :
    (importDb db0 3 envVer1 { validateSchema := true, clearExisting := true }).1 =
      .error (.vdb "INVALID_VERSION") ∧
    ¬ (Err.vdb "INVALID_VERSION" = Err.vdb "INVALID_EXPORT_DATA") := by
  constructor
  · decide
  · decide

/-- Claim C8 (amended): an envelope whose major version part does not parse to the
current major (1) fails with `VERSION_INCOMPATIBLE` leaving state unchanged; a
parsed major of 1 with minor greater than the current minor passes version
validation with the warning flag, and importing an otherwise-valid envelope
with such a version succeeds with a warning in the trace; an envelope with a
missing (empty) version fails with `INVALID_EXPORT_DATA`; but a version string
with fewer than two dot-separated parts fails with the distinct
`INVALID_VERSION` code, not `INVALID_EXPORT_DATA`. -/
theorem C8_version_compat_amended :
    (∀ (db : DB) (now : Nat) (env : ExportData) (opts : ImportOptions)
        (p0 p1 : String) (rest : List String),
      (opts.validateSchema = true → validateExportData env = .ok ()) →
      splitDots env.version = p0 :: p1 :: rest →
      parseIntJS p0 ≠ some 1 →
      importDb db now env opts = (.error (.vdb "VERSION_INCOMPATIBLE"), db, [])) ∧
    (∀ (version p0 p1 : String) (rest : List String) (mn : Nat),
      splitDots version = p0 :: p1 :: rest →
      parseIntJS p0 = some 1 → parseIntJS p1 = some mn → 0 < mn →
      validateVersionCompatibility version = .ok true) ∧
    (∀ (embed : String → List ℚ) (db : DB), WF embed db → ∀ (now1 now2 : Nat),
      ∃ effs2 : List Eff,
        importDb db now2 { exportEnvOf db now1 with version := "1.5.0" }
            { validateSchema := true, clearExisting := true } =
          (.ok (), ⟨db.cfg, db.storage, db.index, [], []⟩, effs2) ∧
        Eff.warn ∈ effs2) ∧
    (∀ (db : DB) (now : Nat) (env : ExportData) (opts : ImportOptions),
      opts.validateSchema = true → env.version = "" →
      importDb db now env opts = (.error (.vdb "INVALID_EXPORT_DATA"), db, [])) ∧
    (∀ (db : DB) (now : Nat) (env : ExportData) (opts : ImportOptions) (p0 : String),
      (opts.validateSchema = true → validateExportData env = .ok ()) →
      splitDots env.version = [p0] →
      importDb db now env opts = (.error (.vdb "INVALID_VERSION"), db, [])) := by
  refine ⟨?_, ?_, ?_, ?_, ?_⟩
  · intro db now env opts p0 p1 rest hval hsplit hmaj
    have hver : validateVersionCompatibility env.version =
        .error (.vdb "VERSION_INCOMPATIBLE") := by
      simp [validateVersionCompatibility, hsplit, hmaj]
    rcases hopt : opts.validateSchema with _ | _
    · simp [importDb, hopt, hver]
    · simp [importDb, hopt, hval hopt, hver]
  · intro version p0 p1 rest mn hsplit hmaj hmin hpos
    simp [validateVersionCompatibility, hsplit, hmaj, hmin, hpos]
  · intro embed db hwf now1 now2
    refine ⟨_, import_export_ver hwf now1 now2 "1.5.0" true (by decide) (by decide), ?_⟩
    simp
  · intro db now env opts hopt hver
    have hval : validateExportData env = .error (.vdb "INVALID_EXPORT_DATA") := by
      simp [validateExportData, hver]
    simp [importDb, hopt, hval]
  · intro db now env opts p0 hval hsplit
    have hver : validateVersionCompatibility env.version =
        .error (.vdb "INVALID_VERSION") := by
      simp [validateVersionCompatibility, hsplit]
    rcases hopt : opts.validateSchema with _ | _
    · simp [importDb, hopt, hver]
    · simp [importDb, hopt, hval hopt, hver]

theorem C8_version_compat_amended_witness :
    importDb db0 3 { envVer1 with version := "2.0.0" }
        { validateSchema := true, clearExisting := true } =
      (.error (.vdb "VERSION_INCOMPATIBLE"), db0, []) ∧
    validateVersionCompatibility "1.5.0" = .ok true ∧
    (∃ effs2 : List Eff,
      importDb db1c 23 { exportEnvOf db1c 19 with version := "1.5.0" }
          { validateSchema := true, clearExisting := true } =
        (.ok (), ⟨db1c.cfg, db1c.storage, db1c.index, [], []⟩, effs2) ∧
      Eff.warn ∈ effs2) ∧
    importDb db0 3 { envVer1 with version := "" }
        { validateSchema := true, clearExisting := true } =
      (.error (.vdb "INVALID_EXPORT_DATA"), db0, []) ∧
    importDb db0 3 envVer1 { validateSchema := true, clearExisting := true } =
      (.error (.vdb "INVALID_VERSION"), db0, []) := by
  refine ⟨?_, ?_, ?_, ?_, ?_⟩
  · exact C8_version_compat_amended.1 db0 3 { envVer1 with version := "2.0.0" }
      { validateSchema := true, clearExisting := true } "2" "0" ["0"]
      (fun _ => by decide) (by decide) (by decide)
  · exact C8_version_compat_amended.2.1 "1.5.0" "1" "5" ["0"] 5
      (by decide) (by decide) (by decide) (by decide)
  · exact C8_version_compat_amended.2.2.1 embed0 db1c
      (reachable_wf (Reachable.insertStep db0 db1c 5 "abc" data0 "5-abc"
        [Eff.storagePut "5-abc", Eff.cacheSet "5-abc", Eff.indexAdd "5-abc"]
        (Reachable.init 2 false none (by decide)) (by decide) (by decide))) 19 23
  · exact C8_version_compat_amended.2.2.2.1 db0 3 { envVer1 with version := "" }
      { validateSchema := true, clearExisting := true } rfl rfl
  · exact C8_version_compat_amended.2.2.2.2 db0 3 envVer1
      { validateSchema := true, clearExisting := true } "1"
      (fun _ => by decide) (by decide)

end Haven
